import Mathlib

/-!
Shallow embedding of the cross-instance import engine of the
`directus-module-export` repository (source file `utils/apiHandlers.ts`:
`importFromDirectus`, its helpers `getMappedLocalId`, `upsertMapping`,
`sameFileMeta`, `copyFileToTarget`, `deriveItemTitle`, and the ZIP-import
helpers `sanitizePayload` / `remapFileIds`).

JavaScript values are modelled by the inductive `Value` (JSON-ish tagged
values; `undefined` is modelled as the absence of a binding, i.e. `Option`).
Machine effects (HTTP calls against the source and target Directus
instances) are modelled by an explicit world state `World` threaded through
every operation, plus an oracle environment `Env` fixing the behaviour of
the external collaborators (token validation, the source server's item and
file endpoints, failure modes of the target's write endpoints).  Every HTTP
request additionally records a `Call` in a trace so that theorems can speak
about which network operations a run performs.  Exceptions are modelled
with `Except`; a `try/catch` of the source becomes a `match` on the
`Except` value, and state mutations performed before a throw survive it,
exactly as in the JavaScript original.
-/

namespace DirectusImport

/-- JSON-like runtime values (JavaScript `any`).  `vNull` models `null`;
`undefined` is represented by absence (`Option Value`). -/
inductive Value : Type where
  | vNull : Value
  | vStr : String → Value
  | vNum : Int → Value
  | vBool : Bool → Value
  | vObj : List (String × Value) → Value
  | vArr : List Value → Value

mutual

/-- Decidable equality for `Value` (the derive handler does not support the
nested induction, so it is spelled out). -/
def Value.decEq : (a b : Value) → Decidable (a = b)
  | .vNull, .vNull => isTrue rfl
  | .vStr a, .vStr b =>
    if h : a = b then isTrue (by rw [h]) else isFalse (by intro hh; cases hh; exact h rfl)
  | .vNum a, .vNum b =>
    if h : a = b then isTrue (by rw [h]) else isFalse (by intro hh; cases hh; exact h rfl)
  | .vBool a, .vBool b =>
    if h : a = b then isTrue (by rw [h]) else isFalse (by intro hh; cases hh; exact h rfl)
  | .vObj a, .vObj b =>
    match Value.decEqFields a b with
    | isTrue h => isTrue (by rw [h])
    | isFalse h => isFalse (by intro hh; injection hh with h1; exact h h1)
  | .vArr a, .vArr b =>
    match Value.decEqList a b with
    | isTrue h => isTrue (by rw [h])
    | isFalse h => isFalse (by intro hh; injection hh with h1; exact h h1)
  | .vNull, .vStr _ => isFalse nofun
  | .vNull, .vNum _ => isFalse nofun
  | .vNull, .vBool _ => isFalse nofun
  | .vNull, .vObj _ => isFalse nofun
  | .vNull, .vArr _ => isFalse nofun
  | .vStr _, .vNull => isFalse nofun
  | .vStr _, .vNum _ => isFalse nofun
  | .vStr _, .vBool _ => isFalse nofun
  | .vStr _, .vObj _ => isFalse nofun
  | .vStr _, .vArr _ => isFalse nofun
  | .vNum _, .vNull => isFalse nofun
  | .vNum _, .vStr _ => isFalse nofun
  | .vNum _, .vBool _ => isFalse nofun
  | .vNum _, .vObj _ => isFalse nofun
  | .vNum _, .vArr _ => isFalse nofun
  | .vBool _, .vNull => isFalse nofun
  | .vBool _, .vStr _ => isFalse nofun
  | .vBool _, .vNum _ => isFalse nofun
  | .vBool _, .vObj _ => isFalse nofun
  | .vBool _, .vArr _ => isFalse nofun
  | .vObj _, .vNull => isFalse nofun
  | .vObj _, .vStr _ => isFalse nofun
  | .vObj _, .vNum _ => isFalse nofun
  | .vObj _, .vBool _ => isFalse nofun
  | .vObj _, .vArr _ => isFalse nofun
  | .vArr _, .vNull => isFalse nofun
  | .vArr _, .vStr _ => isFalse nofun
  | .vArr _, .vNum _ => isFalse nofun
  | .vArr _, .vBool _ => isFalse nofun
  | .vArr _, .vObj _ => isFalse nofun

/-- Decidable equality for object field lists. -/
def Value.decEqFields : (a b : List (String × Value)) → Decidable (a = b)
  | [], [] => isTrue rfl
  | [], _ :: _ => isFalse nofun
  | _ :: _, [] => isFalse nofun
  | (k1, v1) :: t1, (k2, v2) :: t2 =>
    if hk : k1 = k2 then
      match Value.decEq v1 v2 with
      | isTrue hv =>
        match Value.decEqFields t1 t2 with
        | isTrue ht => isTrue (by rw [hk, hv, ht])
        | isFalse ht => isFalse (by intro h; injection h with _ h2; exact ht h2)
      | isFalse hv => isFalse (by
          intro h; injection h with h1 _; injection h1 with _ hv1; exact hv hv1)
    else isFalse (by
      intro h; injection h with h1 _; injection h1 with hk1 _; exact hk hk1)

/-- Decidable equality for value lists. -/
def Value.decEqList : (a b : List Value) → Decidable (a = b)
  | [], [] => isTrue rfl
  | [], _ :: _ => isFalse nofun
  | _ :: _, [] => isFalse nofun
  | v1 :: t1, v2 :: t2 =>
    match Value.decEq v1 v2 with
    | isTrue hv =>
      match Value.decEqList t1 t2 with
      | isTrue ht => isTrue (by rw [hv, ht])
      | isFalse ht => isFalse (by intro h; injection h with _ h2; exact ht h2)
    | isFalse hv => isFalse (by intro h; injection h with h1 _; exact hv h1)

end

instance : DecidableEq Value := Value.decEq

namespace Value

/-- JavaScript truthiness for the modelled values. -/
def truthy : Value → Bool
  | vNull => false
  | vStr s => s ≠ ""
  | vNum n => n ≠ 0
  | vBool b => b
  | vObj _ => true
  | vArr _ => true

/-- JavaScript `String(v)` coercion, for the cases the engine exercises. -/
def jsToString : Value → String
  | vNull => "null"
  | vStr s => s
  | vNum n => toString n
  | vBool b => if b then "true" else "false"
  | vObj _ => "[object Object]"
  | vArr _ => ""

end Value

open Value

/-- First-match association-list lookup (JavaScript property read on an
object literal, whose keys are unique). -/
def lookupField (fs : List (String × Value)) (k : String) : Option Value :=
  (fs.find? (fun p => p.1 = k)).map Prod.snd

/-- In-place property write `obj[k] = v` on an existing key: replaces the
binding, preserving key order. -/
def setField (fs : List (String × Value)) (k : String) (v : Value) :
    List (String × Value) :=
  fs.map (fun p => if p.1 = k then (k, v) else p)

/-- Property write that replaces the binding when the key exists and
appends it otherwise (JavaScript `obj[k] = v`). -/
def setOrAppend (fs : List (String × Value)) (k : String) (v : Value) :
    List (String × Value) :=
  if (fs.find? (fun p => p.1 = k)).isSome then setField fs k v
  else fs ++ [(k, v)]

/-- The object fields of a value, as seen by a rest-destructuring
`const ... = item` over a non-null value.  Primitives contribute no
(modelled) own enumerable properties. -/
def objFields : Value → List (String × Value)
  | vObj fs => fs
  | _ => []

/-- The five server-managed field names removed by
`const (id, date_created, date_updated, user_created, user_updated, ...rest)`
destructuring in both import paths. -/
def systemFieldNames : List String :=
  ["id", "date_created", "date_updated", "user_created", "user_updated"]

/-- Rest part of the destructuring: every binding whose key is not one of
the server-managed field names. -/
def removeSystemFields (fs : List (String × Value)) : List (String × Value) :=
  fs.filter (fun p => p.1 ∉ systemFieldNames)

/-- Directus file metadata as consumed by the comparison and upload logic
(`checksum`, `filesize`, `type`, `title`, `folder`, `filename_download`,
`filename`); absent properties are `none`.  `filesize` is `some` exactly
when the JavaScript value has `typeof === "number"`. -/
structure FileMeta where
  checksum : Option String := none
  filesize : Option Int := none
  type : Option String := none
  title : Option String := none
  folder : Option String := none
  filenameDownload : Option String := none
  filename : Option String := none
deriving DecidableEq, Repr

/-- Truthiness of an optional string property (`meta.checksum && ...`):
present and non-empty. -/
def truthyStr : Option String → Bool
  | some s => s ≠ ""
  | none => false

/-- Embedding of the `sameFileMeta(src, dst)` closure of
`importFromDirectus`: `null`-guard, then checksum equality (with JavaScript
truthiness guards), then filesize equality refined by a type mismatch
check. -/
def sameFileMeta (src dst : Option FileMeta) : Bool :=
  match src, dst with
  | none, _ => false
  | _, none => false
  | some s, some d =>
    if truthyStr s.checksum ∧ truthyStr d.checksum ∧ s.checksum = d.checksum then
      true
    else
      match s.filesize, d.filesize with
      | some ss, some ds =>
        if ss = ds then
          if truthyStr s.type ∧ truthyStr d.type ∧ s.type ≠ d.type then false
          else true
        else false
      | _, _ => false

/-- The guard of the checksum branch of `sameFileMeta`. -/
def checksumMatch (s d : FileMeta) : Prop :=
  truthyStr s.checksum ∧ truthyStr d.checksum ∧ s.checksum = d.checksum

instance (s d : FileMeta) : Decidable (checksumMatch s d) := by
  unfold checksumMatch; infer_instance

/-- The size/type branch of `sameFileMeta`, reached only when the checksum
branch does not fire. -/
def sizeTypeDecision (s d : FileMeta) : Bool :=
  match s.filesize, d.filesize with
  | some ss, some ds =>
    if ss = ds then
      if truthyStr s.type ∧ truthyStr d.type ∧ s.type ≠ d.type then false
      else true
    else false
  | _, _ => false

example :
    sameFileMeta (some { checksum := some "abc", filesize := some 10 })
      (some { checksum := some "abc", filesize := some 99 }) = true := by
  decide

example :
    sameFileMeta (some { checksum := some "abc", filesize := some 10 })
      (some { checksum := some "zzz", filesize := some 10 }) = true := by
  decide

example :
    sameFileMeta (some { checksum := none, filesize := some 10, type := some "a" })
      (some { checksum := some "zzz", filesize := some 10, type := some "b" }) = false := by
  decide

/-- A folder on the target instance (`/folders` rows). -/
structure Folder where
  fid : String
  name : String
deriving DecidableEq, Repr

/-- A row of the `directus_sync_id_map` mapping store on the target. -/
structure SyncRow where
  rid : String
  table : String
  syncId : String
  localId : String
deriving DecidableEq, Repr

/-- An item stored on the target instance, keyed by collection and id. -/
structure TItem where
  coll : String
  tid : String
  fields : List (String × Value)
deriving DecidableEq

/-- The durable state of the target instance: folders, mapping rows, items,
file objects, and the generator used to mint fresh target-side ids. -/
structure World where
  folders : List Folder := []
  syncRows : List SyncRow := []
  items : List TItem := []
  files : List (String × FileMeta) := []
  nextId : Nat := 0
deriving DecidableEq

/-- One HTTP request performed during a run, as recorded in the trace.
Requests against the source instance are `srcFileGet` (metadata probe and
fetch, the same `GET files/id` endpoint), `srcAssetGet` (binary) and
`itemsFetch` (the collection read); every other constructor is a request
against the target instance. -/
inductive Call : Type where
  | tokenCheck : Call
  | folderGet : Call
  | folderPost : Call
  | itemsFetch : Call
  | syncGet : Call
  | syncPost : String → String → Call
  | syncPatch : String → String → Call
  | itemGet : String → Call
  | srcFileGet : String → Call
  | srcAssetGet : String → Call
  | filePost : String → Call
  | filePatch : String → Call
  | fileGet : String → Call
  | itemPost : List (String × Value) → Call
  | itemPatch : String → List (String × Value) → Call
deriving DecidableEq

/-- One `importLog` entry: the step name passed to `logStep`, plus the
field name for the per-field file-transfer events (other detail payloads
are not modelled). -/
structure LogE where
  step : String
  field : Option String := none
deriving DecidableEq, Repr

/-- Full machine state threaded through a run: the target world plus the
run-local `fileIdCache`, the trace of HTTP calls, and the import log. -/
structure St where
  world : World
  cache : List (String × String) := []
  calls : List Call := []
  log : List LogE := []
deriving DecidableEq

/-- Oracle environment fixing the behaviour of the external collaborators
for one run: the token validation result (`Except.error` models the
validator itself throwing), the source server's response to the item list
request, the source file metadata endpoint (`none` = not accessible), the
source binary endpoint, whether the target upload response carries an id,
whether the mapping store exists on the target, whether the folder
endpoints work, and per-item write/patch rejection by the target (keyed by
the stringified source id). -/
structure Env where
  tokenValidation : Except String Bool := .ok true
  itemsResponse : Except String Value := .ok (Value.vArr [])
  sourceFiles : String → Option FileMeta := fun _ => none
  sourceBinaryOk : String → Bool := fun _ => true
  uploadReturnsId : Bool := true
  syncAvailable : Bool := true
  folderOk : Bool := true
  writeFails : String → Bool := fun _ => false
  patchRejects : String → Bool := fun _ => false

/-- Arguments of `importFromDirectus` that the embedding depends on
(`sourceUrl`/`sourceToken` only feed the oracles). -/
structure Args where
  collection : String
  limit : Option Int := none
  titleFilter : Option String := none

/-- Append an `importLog` entry (the `logStep` closure). -/
def logStep (step : String) (field : Option String) (st : St) : St :=
  { st with log := st.log ++ [{ step := step, field := field }] }

/-- Record one HTTP request in the trace. -/
def record (c : Call) (st : St) : St :=
  { st with calls := st.calls ++ [c] }

/-- Mint a fresh target-side id. -/
def freshId (st : St) : String × St :=
  ("t" ++ toString st.world.nextId,
   { st with world := { st.world with nextId := st.world.nextId + 1 } })

/-- Create the collection-named target folder (`POST /folders`). -/
def createTargetFolder (collection : String) (st : St) : Option String × St :=
  let st := record .folderPost st
  let fr := freshId st
  let nid := fr.1
  let st := fr.2
  let st :=
    { st with world :=
        { st.world with folders := st.world.folders ++ [{ fid := nid, name := collection }] } }
  (some nid, logStep "target_folder_ready" none st)

/-- The ensure-target-folder step of `importFromDirectus`: look the folder
up by name, create it when absent; a thrown folder request (modelled by
`env.folderOk = false`) is caught, logged as `target_folder_error`, and
leaves `targetFolderId` null. -/
def ensureTargetFolder (env : Env) (collection : String) (st : St) : Option String × St :=
  let st := record .folderGet st
  if env.folderOk then
    match st.world.folders.find? (fun f => f.name = collection) with
    | some f =>
      if f.fid ≠ "" then (some f.fid, logStep "target_folder_ready" none st)
      else createTargetFolder collection st
    | none => createTargetFolder collection st
  else (none, logStep "target_folder_error" none st)

/-- First mapping row matching `(table, sync_id)` — the `limit 1` filtered
read both `getMappedLocalId` and `upsertMapping` perform. -/
def lookupSyncRow (w : World) (collection syncId : String) : Option SyncRow :=
  w.syncRows.find? (fun r => r.table = collection ∧ r.syncId = syncId)

/-- Embedding of the `getMappedLocalId` closure: a read of the mapping
store; any thrown error (store absent, `env.syncAvailable = false`) is
caught and yields `none`; a hit with a truthy `local_id` yields it. -/
def getMappedLocalId (env : Env) (collection syncId : String) (st : St) :
    Option String × St :=
  let st := record .syncGet st
  if env.syncAvailable then
    match lookupSyncRow st.world collection syncId with
    | some r => if r.localId ≠ "" then (some r.localId, st) else (none, st)
    | none => (none, st)
  else (none, st)

/-- Insert a fresh mapping row (`POST /items/directus_sync_id_map`). -/
def insertSyncRow (collection syncId localId : String) (st : St) : St :=
  let st := record (.syncPost syncId localId) st
  let fr := freshId st
  let nid := fr.1
  let st := fr.2
  { st with world :=
      { st.world with syncRows :=
          st.world.syncRows ++
            [{ rid := nid, table := collection, syncId := syncId, localId := localId }] } }

/-- Embedding of the `upsertMapping` closure: read the existing row; when
one with a truthy id exists, patch its `local_id` only if it differs;
otherwise insert a fresh row.  Every thrown error (store absent) is
swallowed — the function is total and never surfaces a failure. -/
def upsertMapping (env : Env) (collection syncId localId : String) (st : St) : St :=
  let st := record .syncGet st
  if env.syncAvailable then
    match lookupSyncRow st.world collection syncId with
    | some r =>
      if r.rid ≠ "" then
        if r.localId ≠ localId then
          let st := record (.syncPatch r.rid localId) st
          { st with world :=
              { st.world with syncRows :=
                  st.world.syncRows.map (fun q =>
                    if q.rid = r.rid then { q with localId := localId } else q) } }
        else st
      else insertSyncRow collection syncId localId st
    | none => insertSyncRow collection syncId localId st
  else st

/-- Metadata of a target file, `none` when the id is unknown there. -/
def findTargetFile (w : World) (fid : String) : Option FileMeta :=
  (w.files.find? (fun p => p.1 = fid)).map Prod.snd

/-- Embedding of the `fetchTargetFileMeta` closure (`GET /files/id` on the
target); a missing file makes the request throw. -/
def fetchTargetFileMeta (fid : String) (st : St) : Except String FileMeta × St :=
  let st := record (.fileGet fid) st
  match findTargetFile st.world fid with
  | some m => (.ok m, st)
  | none => (.error "target file metadata request failed", st)

/-- Embedding of the `fetchSourceFileMeta` closure (`GET files/id` on the
source); a non-OK response throws. -/
def fetchSourceFileMeta (env : Env) (fid : String) (st : St) :
    Except String FileMeta × St :=
  let st := record (.srcFileGet fid) st
  match env.sourceFiles fid with
  | some m => (.ok m, st)
  | none => (.error "Source file metadata not accessible", st)

/-- JavaScript `a || b` on strings (empty is falsy). -/
def jsOrStr (a b : String) : String := if a ≠ "" then a else b

/-- JavaScript `p && String(p).trim()` on an optional string. -/
def andTrim : Option String → String
  | some p => if p ≠ "" then p.trim else ""
  | none => ""

/-- Embedding of the `copyFileToTarget` closure: per-run cache check, then
source metadata fetch, binary fetch, multipart upload into the target
folder; the returned id is cached.  Every failure is rethrown wrapped in a
`File copy failed` message, as in the source. -/
def copyFileToTarget (env : Env) (targetFolderId : Option String) (fid : String)
    (preferredTitle : Option String) (st : St) : Except String String × St :=
  match st.cache.find? (fun p => p.1 = fid) with
  | some p => (.ok p.2, st)
  | none =>
    let fm := fetchSourceFileMeta env fid st
    match fm.1 with
    | .error e => (.error ("File copy failed for " ++ fid ++ ": " ++ e), fm.2)
    | .ok meta =>
      let st := record (.srcAssetGet fid) fm.2
      if env.sourceBinaryOk fid then
        let filename := jsOrStr (meta.filenameDownload.getD "")
          (jsOrStr (meta.filename.getD "") fid)
        let finalTitle := jsOrStr (andTrim preferredTitle) (andTrim meta.title)
        let st := record (.filePost fid) st
        let fr := freshId st
        let nid := fr.1
        let st := fr.2
        let uploaded : FileMeta :=
          { checksum := meta.checksum, filesize := meta.filesize, type := meta.type,
            title := if finalTitle ≠ "" then some finalTitle else none,
            folder := targetFolderId,
            filenameDownload := if truthyStr meta.filenameDownload then meta.filenameDownload else none,
            filename := some filename }
        let st :=
          { st with world := { st.world with files := st.world.files ++ [(nid, uploaded)] } }
        if env.uploadReturnsId then
          (.ok nid, { st with cache := st.cache ++ [(fid, nid)] })
        else
          (.error ("File copy failed for " ++ fid ++ ": Target upload did not return an ID"), st)
      else
        (.error ("File copy failed for " ++ fid ++ ": Source file binary not accessible"), st)

/-- The title string extracted from one translation entry: a plain string
`title`, or the `value` of a rich-text object shaped `{value: string}`,
else the empty string. -/
def trTitleString (tr : Value) : String :=
  match tr with
  | .vObj fs =>
    match lookupField fs "title" with
    | some (.vStr s) => s
    | some (.vObj g) =>
      match lookupField g "value" with
      | some (.vStr v) => v
      | _ => ""
    | _ => ""
  | _ => ""

/-- First truthy translation entry whose derived title has a non-empty
trim, mirroring the `for (const tr of translations)` loop of
`deriveItemTitle`. -/
def firstTranslationTitle : List Value → Option String
  | [] => none
  | tr :: rest =>
    if tr.truthy then
      let t := trTitleString tr
      if t ≠ "" ∧ t.trim ≠ "" then some t.trim else firstTranslationTitle rest
    else firstTranslationTitle rest

/-- Embedding of the `deriveItemTitle` closure: the item's own string
`title` when its trim is non-empty, else the first usable translation
title, else `none`. -/
def deriveItemTitle (item : Value) : Option String :=
  let viaTranslations : Option String :=
    match lookupField (objFields item) "translations" with
    | some (.vArr l) => firstTranslationTitle l
    | _ => none
  match item.truthy, lookupField (objFields item) "title" with
  | true, some (.vStr s) => if s.trim ≠ "" then some s.trim else viaTranslations
  | _, _ => viaTranslations

/-- Candidate source file id of a field value: the string itself, or a
truthy string `id` property of an object; `none` otherwise (the
`!candidateId || typeof candidateId !== "string"` guard). -/
def candidateFileId (v : Value) : Option String :=
  match v with
  | .vStr s => if s ≠ "" then some s else none
  | .vObj fs =>
    match lookupField fs "id" with
    | some idv => if idv.truthy then
        match idv with
        | .vStr s => some s
        | _ => none
      else none
    | none => none
  | _ => none

/-- Target file id read off the existing item's value in the same field:
a string, or the stringified truthy `id` property of an object, subject to
the final `if (existingTargetFileId)` truthiness guard. -/
def existingFileId : Option Value → Option String
  | some (.vStr s) => if s ≠ "" then some s else none
  | some (.vObj fs) =>
    match lookupField fs "id" with
    | some idv =>
      if idv.truthy then
        if idv.jsToString ≠ "" then some idv.jsToString else none
      else none
    | none => none
  | _ => none

/-- Per-item mutable context of the file-transfer loop: the payload being
rewritten plus the three per-item caches. -/
structure FieldSt where
  cleanItem : List (String × Value)
  perMap : List (String × String) := []
  perPatched : List String := []
  perMeta : List (String × FileMeta) := []
deriving DecidableEq

/-- Apply a `/files/id` patch (title and/or folder) to stored metadata. -/
def applyFilePatch (m : FileMeta) (pt pf : Option String) : FileMeta :=
  { m with title := match pt with | some t => some t | none => m.title,
           folder := match pf with | some f => some f | none => m.folder }

/-- Embedding of the existing-file reuse block: compare source metadata
(per-item cached) against the target file already referenced by the same
field of the existing item; on a `sameFileMeta` match, optionally patch
title/folder (at most once per file per item), and resolve to the existing
target id.  Any thrown comparison step is caught and yields `none`,
falling through to a fresh copy. -/
def reuseCompare (tfid : Option String) (itemTitle : Option String)
    (key c etid : String) (srcMeta : FileMeta) (fss : FieldSt) (st : St) :
    Option String × FieldSt × St :=
  let fss :=
    { fss with perMeta :=
        if (fss.perMeta.find? (fun p => p.1 = c)).isSome then fss.perMeta
        else fss.perMeta ++ [(c, srcMeta)] }
  let ft := fetchTargetFileMeta etid st
  match ft.1 with
  | .error _ => (none, fss, ft.2)
  | .ok dstMeta =>
    let st := ft.2
    if sameFileMeta (some srcMeta) (some dstMeta) then
        let desiredTitle : Option String :=
          match itemTitle with
          | some t => if t ≠ "" ∧ t.trim ≠ "" then some t.trim else none
          | none => none
        let patchTitle : Option String :=
          match desiredTitle with
          | some dt => if dstMeta.title ≠ some dt then some dt else none
          | none => none
        let patchFolder : Option String :=
          match tfid with
          | some f => if dstMeta.folder ≠ some f then some f else none
          | none => none
        if (patchTitle.isSome ∨ patchFolder.isSome) ∧ etid ∉ fss.perPatched then
          let st := record (.filePatch etid) st
          let st :=
            { st with world :=
                { st.world with files := st.world.files.map (fun p =>
                    if p.1 = etid then (p.1, applyFilePatch p.2 patchTitle patchFolder) else p) } }
          let fss := { fss with perPatched := fss.perPatched ++ [etid] }
          (some etid, fss, logStep "file_reused_and_patched" (some key) st)
        else
          (some etid, fss, logStep "file_reused" (some key) st)
      else (none, fss, st)

/-- The per-item source-metadata cache step in front of the comparison:
reuse the cached metadata or fetch it, catching a thrown fetch. -/
def tryReuseExisting (env : Env) (tfid : Option String) (itemTitle : Option String)
    (key c etid : String) (fss : FieldSt) (st : St) : Option String × FieldSt × St :=
  let metaStep : Except String FileMeta × St :=
    match fss.perMeta.find? (fun p => p.1 = c) with
    | some p => (.ok p.2, st)
    | none => fetchSourceFileMeta env c st
  match metaStep.1 with
  | .error _ => (none, fss, metaStep.2)
  | .ok srcMeta => reuseCompare tfid itemTitle key c etid srcMeta fss metaStep.2

/-- The existing-item dispatch in front of `tryReuseExisting`: only when a
pre-existing snapshot carries a truthy file id in the same field is the
comparison attempted. -/
def tryReuseViaExisting (env : Env) (tfid itemTitle : Option String)
    (existing : Option (List (String × Value))) (key c : String)
    (fss : FieldSt) (st : St) : Option String × FieldSt × St :=
  match existing with
  | some exFields =>
    match existingFileId (lookupField exFields key) with
    | some etid => tryReuseExisting env tfid itemTitle key c etid fss st
    | none => (none, fss, st)
  | none => (none, fss, st)

/-- Embedding of one iteration of the per-field file-transfer loop
(`for (const key of Object.keys(cleanItem))`): skip falsy values, skip and
log arrays, extract a candidate id, reuse the per-item resolution when
present, probe the source, try existing-file reuse, else copy; a copy
failure is caught, logged as `file_copy_error`, and leaves the field at
its original value. -/
def processField (env : Env) (tfid : Option String) (itemTitle : Option String)
    (existing : Option (List (String × Value))) (key : String)
    (fss : FieldSt) (st : St) : FieldSt × St :=
  match lookupField fss.cleanItem key with
  | none => (fss, st)
  | some value =>
    if value.truthy then
      match value with
      | .vArr _ => (fss, logStep "file_copy_skip" (some key) st)
      | _ =>
        match candidateFileId value with
        | none => (fss, st)
        | some c =>
          match fss.perMap.find? (fun p => p.1 = c) with
          | some p =>
            ({ fss with cleanItem := setField fss.cleanItem key (.vStr p.2) },
             logStep "file_reused_in_item" (some key) st)
          | none =>
            let st := record (.srcFileGet c) st
            if (env.sourceFiles c).isSome then
              let tre := tryReuseViaExisting env tfid itemTitle existing key c fss st
              let fss := tre.2.1
              let st := tre.2.2
              match tre.1 with
              | some rid =>
                ({ fss with cleanItem := setField fss.cleanItem key (.vStr rid),
                            perMap := fss.perMap ++ [(c, rid)] }, st)
              | none =>
                let st := logStep "file_copy_start" (some key) st
                let cp := copyFileToTarget env tfid c itemTitle st
                match cp.1 with
                | .ok nid =>
                  ({ fss with cleanItem := setField fss.cleanItem key (.vStr nid),
                              perMap := fss.perMap ++ [(c, nid)] },
                   logStep "file_copy_success" (some key) cp.2)
                | .error _ => (fss, logStep "file_copy_error" (some key) cp.2)
            else (fss, st)
    else (fss, st)

/-- The whole per-field loop, iterating over the key list computed from
`Object.keys(cleanItem)` before the first iteration. -/
def processFields (env : Env) (tfid : Option String) (itemTitle : Option String)
    (existing : Option (List (String × Value))) :
    List String → FieldSt → St → FieldSt × St
  | [], fss, st => (fss, st)
  | k :: ks, fss, st =>
    let pf := processField env tfid itemTitle existing k fss st
    processFields env tfid itemTitle existing ks pf.1 pf.2

/-- One element of `importedItems`: the per-item outcome record pushed by
the reconciliation loop. -/
structure Entry where
  originalId : Option Value := none
  newId : Option String := none
  status : String
  action : Option String := none
  data : Option (List (String × Value)) := none
  errMsg : Option String := none
deriving DecidableEq

/-- Fields of a target item as returned by a read or write response,
`none` when no item with that id exists in the collection. -/
def findItem (w : World) (coll tid : String) : Option (List (String × Value)) :=
  (w.items.find? (fun it => it.coll = coll ∧ it.tid = tid)).map TItem.fields

/-- A write response body: the stored fields with the row id in front. -/
def insertIdField (tid : String) (fs : List (String × Value)) : List (String × Value) :=
  ("id", .vStr tid) :: fs

/-- Merge semantics of a partial update (`PATCH`): payload keys overwrite,
missing keys keep their stored value. -/
def mergeFields (old new : List (String × Value)) : List (String × Value) :=
  new.foldl (fun acc p => setOrAppend acc p.1 p.2) old

/-- Common success tail of the per-item write: the success log event, the
mapping upsert with the response id, and the success entry. -/
def finishSuccess (env : Env) (col syncIdStr : String) (idv : Option Value)
    (act : String) (respId : String) (respData : List (String × Value)) (st : St) :
    Except String Entry × St :=
  let st := logStep (if act = "updated" then "item_updated" else "item_imported") none st
  let st := upsertMapping env col syncIdStr respId st
  (.ok { originalId := idv, newId := some respId, status := "success",
         action := some act, data := some respData }, st)

/-- The create branch (`POST /items/collection`): a target rejection
(oracle `writeFails`) throws to the per-item catch handler; on success the
item is stored under a fresh id. -/
def createItemPath (env : Env) (col syncIdStr : String) (idv : Option Value)
    (cleanItem : List (String × Value)) (st : St) : Except String Entry × St :=
  let st := record (.itemPost cleanItem) st
  if env.writeFails syncIdStr then (.error "Item write rejected by target", st)
  else
    let fr := freshId st
    let nid := fr.1
    let st := fr.2
    let st :=
      { st with world :=
          { st.world with items := st.world.items ++ [{ coll := col, tid := nid, fields := cleanItem }] } }
    finishSuccess env col syncIdStr idv "created" nid (insertIdField nid cleanItem) st

/-- The create-or-update step: with a mapping, attempt a `PATCH` of the
mapped id (failing when the row vanished or the oracle rejects it) and
fall back to a create on failure; without a mapping, create directly. -/
def writeItem (env : Env) (col syncIdStr : String) (idv : Option Value)
    (mapped : Option String) (cleanItem : List (String × Value)) (st : St) :
    Except String Entry × St :=
  match mapped with
  | some lid =>
    let st := logStep "item_update_start" none st
    let st := record (.itemPatch lid cleanItem) st
    match findItem st.world col lid, env.patchRejects syncIdStr with
    | some oldFields, false =>
      let merged := mergeFields oldFields cleanItem
      let st :=
        { st with world :=
            { st.world with items := st.world.items.map (fun it =>
                if it.coll = col ∧ it.tid = lid then { it with fields := merged } else it) } }
      finishSuccess env col syncIdStr idv "updated" lid (insertIdField lid merged) st
    | _, _ =>
      let st := logStep "item_update_failed_fallback_create" none st
      createItemPath env col syncIdStr idv cleanItem st
  | none => createItemPath env col syncIdStr idv cleanItem st

/-- Embedding of the body of the per-item `try` block: destructure (throws
on a null item), derive the title, consult the mapping, fetch the existing
snapshot (failure degrades to no snapshot), run the file-transfer loop
over all keys, then create-or-update and record the mapping. -/
def processItem (env : Env) (col : String) (tfid : Option String) (item : Value)
    (st : St) : Except String Entry × St :=
  match item with
  | .vNull => (.error "Cannot destructure a null item", st)
  | _ =>
    let fs := objFields item
    let idv := lookupField fs "id"
    let cleanItem0 := removeSystemFields fs
    let itemTitle := deriveItemTitle item
    let syncIdStr := match idv with | some v => v.jsToString | none => "undefined"
    let g := getMappedLocalId env col syncIdStr st
    let mapped := g.1
    let ex : Option (List (String × Value)) × St :=
      match mapped with
      | some lid => (findItem g.2.world col lid, record (.itemGet lid) g.2)
      | none => (none, g.2)
    let pf :=
      processFields env tfid itemTitle ex.1 (cleanItem0.map Prod.fst)
        { cleanItem := cleanItem0 } ex.2
    writeItem env col syncIdStr idv mapped pf.1.cleanItem pf.2

/-- The error entry pushed by the per-item catch handler. -/
def errorEntry (idv : Option Value) (msg : String) : Entry :=
  { originalId := idv, status := "error", errMsg := some msg }

/-- JavaScript property access `v.k` as performed by the catch handler on
the raw item (`originalId: item.id`): throws on null. -/
def getProp (v : Value) (k : String) : Except String (Option Value) :=
  match v with
  | .vNull => .error "Cannot read properties of null"
  | .vObj fs => .ok (lookupField fs k)
  | _ => .ok none

/-- Embedding of the `for (const item of itemsToImport)` loop: each item is
processed inside a `try`; a throw is converted by the catch handler into an
error entry (itself reading `item.id`, which rethrows on a null item) and
the loop continues. -/
def importLoop (env : Env) (col : String) (tfid : Option String) :
    List Value → List Entry → St → Except String (List Entry) × St
  | [], acc, st => (.ok acc, st)
  | item :: rest, acc, st =>
    match processItem env col tfid item st with
    | (.ok e, st) => importLoop env col tfid rest (acc ++ [e]) st
    | (.error msg, st) =>
      match getProp item "id" with
      | .error e2 => (.error e2, st)
      | .ok idv =>
        let st := logStep "item_import_failed" none st
        importLoop env col tfid rest (acc ++ [errorEntry idv msg]) st

/-- The run result of `importFromDirectus` (the `error` payload reduced to
its message). -/
structure RunResult where
  success : Bool
  message : String
  importedItems : Option (List Entry) := none
  errMsg : Option String := none
  importLog : List LogE := []
deriving DecidableEq

/-- The optional title-filter fragment of the empty-collection message. -/
def emptyFilterMsg : Option String → String
  | some t => if t ≠ "" ∧ t.trim ≠ "" then " with title filter \x27" ++ t.trim ++ "\x27" else ""
  | none => ""

/-- The optional title-filter fragment of the final summary message. -/
def summaryFilterMsg : Option String → String
  | some t => if t ≠ "" ∧ t.trim ≠ "" then " (filtered by title: \x27" ++ t.trim ++ "\x27)" else ""
  | none => ""

/-- The message returned when the fetched source item list is empty. -/
def emptyCollectionMessage (collection : String) (titleFilter : Option String) : String :=
  "Collection \x27" ++ collection ++ "\x27" ++ emptyFilterMsg titleFilter ++
    " is empty on the source server"

/-- The coercion `Array.isArray(response) ? response : []` applied to the
source list response. -/
def coerceItems : Value → List Value
  | .vArr l => l
  | _ => []

/-- The client-side slice `limit > 0 ? sourceItems.slice(0, limit) : sourceItems`. -/
def sliceLimit (limit : Option Int) (l : List Value) : List Value :=
  match limit with
  | some n => if n > 0 then l.take n.toNat else l
  | none => l

/-- The `title_filter_applied` logging performed while the query parameters
are being built. -/
def titleFilterLog (args : Args) (st : St) : St :=
  match args.titleFilter with
  | some t => if t ≠ "" ∧ t.trim ≠ "" then logStep "title_filter_applied" none st else st
  | none => st

/-- The final run summary message. -/
def summaryMessage (args : Args) (successCount errorCount : Nat) : String :=
  "Successfully imported " ++ toString successCount ++ " items from " ++
    args.collection ++ summaryFilterMsg args.titleFilter ++
    " (" ++ toString errorCount ++ " failed)"

/-- The tail of the pipeline from the source items request on: a thrown
request escapes, a non-array response is coerced to the empty list, an
empty list returns the empty-collection success result, and otherwise the
per-item loop runs and the summary result is assembled. -/
def fetchAndRun (env : Env) (args : Args) (tfid : Option String) (st : St) :
    Except String RunResult × St :=
  let st := record .itemsFetch st
  match env.itemsResponse with
  | .error e => (.error e, st)
  | .ok resp =>
    let sourceItems := coerceItems resp
    let st := logStep "fetch_data_success" none st
    if sourceItems.isEmpty then
      let st := logStep "collection_empty" none st
      (.ok { success := true,
             message := emptyCollectionMessage args.collection args.titleFilter,
             importedItems := some [], importLog := st.log }, st)
    else
      let st := logStep "import_items_start" none st
      let itemsToImport := sliceLimit args.limit sourceItems
      match importLoop env args.collection tfid itemsToImport [] st with
      | (.error e, st) => (.error e, st)
      | (.ok entries, st) =>
        let successCount := entries.countP (fun e => e.status = "success")
        let errorCount := entries.countP (fun e => e.status = "error")
        let st := logStep "import_complete" none st
        (.ok { success := true,
               message := summaryMessage args successCount errorCount,
               importedItems := some entries, importLog := st.log }, st)

/-- Embedding of the body of the outer `try` block of `importFromDirectus`:
token validation (an `Except.error` models the validator throwing, an
`ok false` aborts the run with `success = false`), folder provisioning,
then the fetch-and-run tail. -/
def importTry (env : Env) (args : Args) (st : St) : Except String RunResult × St :=
  let st := logStep "import_start" none st
  let st := record .tokenCheck st
  match env.tokenValidation with
  | .error e => (.error e, st)
  | .ok false =>
    let st := logStep "token_validation_failed" none st
    (.ok { success := false, message := "Token validation failed",
           errMsg := some "token validation error", importLog := st.log }, st)
  | .ok true =>
    let st := logStep "token_validation_success" none st
    let ef := ensureTargetFolder env args.collection st
    let st := logStep "fetch_data_start" none ef.2
    let st := titleFilterLog args st
    fetchAndRun env args ef.1 st

/-- Fresh run-local state over a given target world. -/
def initSt (w : World) : St := { world := w }

/-- Embedding of `importFromDirectus`: run the pipeline; an exception
escaping it is converted by the outer catch into a `success = false`
fatal result (with no `importedItems`). -/
def importFromDirectus (env : Env) (args : Args) (w : World) : RunResult × St :=
  match importTry env args (initSt w) with
  | (.ok r, st) => (r, st)
  | (.error e, st) =>
    let st := logStep "fatal_error" none st
    ({ success := false, message := "Import failed: " ++ e, errMsg := some e,
       importLog := st.log }, st)

/-- The parts of a `directus_fields` row consumed by the ZIP-import
sanitizer: the field name, the `meta.special` flags (empty when not an
array), and the related collection
(`meta.related_collection || related_collection`). -/
structure FieldDef where
  field : String
  special : List String := []
  relatedCollection : Option String := none
deriving DecidableEq, Repr

/-- The `isSimpleValue` helper of the ZIP import: `null`, strings, numbers
and booleans. -/
def isSimpleValue : Value → Bool
  | .vNull => true
  | .vStr _ => true
  | .vNum _ => true
  | .vBool _ => true
  | _ => false

/-- The `toIdIfObject` helper of the ZIP import: a non-array object with a
string `id` is reduced to that id; everything else passes through. -/
def toIdIfObject (v : Value) : Value :=
  if v.truthy then
    match v with
    | .vObj fs =>
      match lookupField fs "id" with
      | some (.vStr s) => .vStr s
      | _ => v
    | _ => v
  else v

/-- Whether the sanitizer treats a schema field as a single-file field
(`special` contains `file`, or the related collection is
`directus_files`). -/
def isFileFieldDef (fd : FieldDef) : Bool :=
  "file" ∈ fd.special ∨ fd.relatedCollection = some "directus_files"

mutual

/-- Embedding of the `remapFileIds` helper of the ZIP import: rewrite file
ids through the originalId-to-newId map inside an arbitrary value.  An
object with a mapped string `id` gets only that id replaced; other objects
and arrays are rewritten recursively; a mapped string is replaced by the
mapped id when that id is truthy. -/
def remapFileIds (m : List (String × String)) : Value → Value
  | .vNull => .vNull
  | .vStr s =>
    if s ≠ "" then
      match m.find? (fun p => p.1 = s) with
      | some p => if p.2 ≠ "" then .vStr p.2 else .vStr s
      | none => .vStr s
    else .vStr s
  | .vNum n => .vNum n
  | .vBool b => .vBool b
  | .vArr l => .vArr (remapFileIdsList m l)
  | .vObj fs =>
    match lookupField fs "id" with
    | some (.vStr s) =>
      if s ≠ "" ∧ (m.find? (fun p => p.1 = s)).isSome then
        .vObj (setField fs "id" (.vStr (((m.find? (fun p => p.1 = s)).map Prod.snd).getD "")))
      else .vObj (remapFileIdsFields m fs)
    | _ => .vObj (remapFileIdsFields m fs)

/-- List part of `remapFileIds`. -/
def remapFileIdsList (m : List (String × String)) : List Value → List Value
  | [] => []
  | v :: t => remapFileIds m v :: remapFileIdsList m t

/-- Object-fields part of `remapFileIds`. -/
def remapFileIdsFields (m : List (String × String)) :
    List (String × Value) → List (String × Value)
  | [] => []
  | (k, v) :: t => (k, remapFileIds m v) :: remapFileIdsFields m t

end

/-- One iteration of the key loop of `sanitizePayload`: skip keys absent
from the destination schema; keep primitives; reduce non-array objects to
their id (forced to a truthy string for file fields, kept when simple or a
string otherwise); drop arrays and remaining composites. -/
def sanitizeStep (fields : List FieldDef) (acc : List (String × Value))
    (key : String) (value : Value) : List (String × Value) :=
  match fields.find? (fun f => f.field = key) with
  | none => acc
  | some fd =>
    if isSimpleValue value then acc ++ [(key, value)]
    else
      match value with
      | .vObj _ =>
        let idOrVal := toIdIfObject value
        if isFileFieldDef fd then
          match idOrVal with
          | .vStr s => if s ≠ "" then acc ++ [(key, .vStr s)] else acc
          | _ => acc
        else
          if isSimpleValue idOrVal then acc ++ [(key, idOrVal)] else acc
      | _ => acc

/-- The `result.status === undefined || null || empty` test guarding the
default-status fill. -/
def statusMissing (result : List (String × Value)) : Bool :=
  match lookupField result "status" with
  | none => true
  | some .vNull => true
  | some (.vStr s) => s = ""
  | _ => false

/-- Embedding of the `sanitizePayload` closure of `importCollectionFromZip`:
keep only destination-schema keys with sanitized values, then default
`status` to `published` when the schema has a `status` field and none
survived. -/
def sanitizePayload (fields : List FieldDef) (raw : List (String × Value)) :
    List (String × Value) :=
  let result := raw.foldl (fun acc p => sanitizeStep fields acc p.1 p.2) []
  if (fields.find? (fun f => f.field = "status")).isSome ∧ statusMissing result then
    setOrAppend result "status" (.vStr "published")
  else result

/-- The destructuring `const (id, ..., ...rest) = raw || \x7b\x7d` opening the
per-item ZIP-import pipeline: server-managed fields are removed before any
other processing. -/
def zipRest (raw : Value) : List (String × Value) :=
  removeSystemFields (objFields (if raw.truthy then raw else .vObj []))

/-- The sanitized payload stage of the ZIP-import pipeline:
`sanitizePayload(remapFileIds(rest))` over the destructured rest. -/
def zipSanitizedPayload (fields : List FieldDef) (m : List (String × String))
    (raw : Value) : List (String × Value) :=
  sanitizePayload fields (objFields (remapFileIds m (.vObj (zipRest raw))))

/-! ### Trace observations used by the theorems -/

/-- Calls that write to the target instance. -/
def isTargetWrite : Call → Bool
  | .folderPost => true
  | .syncPost _ _ => true
  | .syncPatch _ _ => true
  | .filePost _ => true
  | .filePatch _ => true
  | .itemPost _ => true
  | .itemPatch _ _ => true
  | _ => false

/-- Target writes other than folder provisioning: item, file and mapping
writes. -/
def isNonFolderWrite : Call → Bool
  | .syncPost _ _ => true
  | .syncPatch _ _ => true
  | .filePost _ => true
  | .filePatch _ => true
  | .itemPost _ => true
  | .itemPatch _ _ => true
  | _ => false

/-- Item-creation calls (`POST /items/collection`). -/
def isItemPost : Call → Bool
  | .itemPost _ => true
  | _ => false

/-- Number of binary uploads performed for one source file id. -/
def countFilePost (c : String) (calls : List Call) : Nat :=
  calls.countP (fun d => d = .filePost c)

/-- Resolution recorded in a per-item or per-run cache. -/
def perMapLookup (m : List (String × String)) (c : String) : Option String :=
  (m.find? (fun p => p.1 = c)).map Prod.snd

/-- Number of mapping rows stored for one `(collection, sourceId)` pair. -/
def countSyncRows (w : World) (col s : String) : Nat :=
  w.syncRows.countP (fun r => r.table = col ∧ r.syncId = s)

/-- The stringified source id the reconciliation loop keys one item by. -/
def idOf (v : Value) : String :=
  match lookupField (objFields v) "id" with
  | some w => w.jsToString
  | none => "undefined"

/-! ### Plumbing lemmas about the primitive state operations -/

@[simp] theorem record_world (c : Call) (st : St) : (record c st).world = st.world := rfl

@[simp] theorem record_cache (c : Call) (st : St) : (record c st).cache = st.cache := rfl

@[simp] theorem record_log (c : Call) (st : St) : (record c st).log = st.log := rfl

@[simp] theorem record_calls (c : Call) (st : St) :
    (record c st).calls = st.calls ++ [c] := rfl

@[simp] theorem logStep_world (s : String) (f : Option String) (st : St) :
    (logStep s f st).world = st.world := rfl

@[simp] theorem logStep_cache (s : String) (f : Option String) (st : St) :
    (logStep s f st).cache = st.cache := rfl

@[simp] theorem logStep_calls (s : String) (f : Option String) (st : St) :
    (logStep s f st).calls = st.calls := rfl

@[simp] theorem logStep_log (s : String) (f : Option String) (st : St) :
    (logStep s f st).log = st.log ++ [{ step := s, field := f }] := rfl

@[simp] theorem freshId_world_folders (st : St) :
    (freshId st).2.world.folders = st.world.folders := rfl

@[simp] theorem freshId_world_syncRows (st : St) :
    (freshId st).2.world.syncRows = st.world.syncRows := rfl

@[simp] theorem freshId_world_items (st : St) :
    (freshId st).2.world.items = st.world.items := rfl

@[simp] theorem freshId_world_files (st : St) :
    (freshId st).2.world.files = st.world.files := rfl

@[simp] theorem freshId_cache (st : St) : (freshId st).2.cache = st.cache := rfl

@[simp] theorem freshId_calls (st : St) : (freshId st).2.calls = st.calls := rfl

@[simp] theorem freshId_log (st : St) : (freshId st).2.log = st.log := rfl

theorem freshId_fst (st : St) : (freshId st).1 = "t" ++ toString st.world.nextId := rfl

theorem freshId_fst_ne_empty (st : St) : (freshId st).1 ≠ "" := by
  rw [freshId_fst]
  intro h
  have h2 : "t".length + (toString st.world.nextId).length = 0 := by
    rw [← String.length_append, h]
    rfl
  have h1 : "t".length = 1 := rfl
  omega

@[simp] theorem titleFilterLog_world (args : Args) (st : St) :
    (titleFilterLog args st).world = st.world := by
  unfold titleFilterLog
  cases args.titleFilter with
  | none => rfl
  | some t =>
    by_cases h : t ≠ "" ∧ t.trim ≠ "" <;> simp [h]

@[simp] theorem titleFilterLog_calls (args : Args) (st : St) :
    (titleFilterLog args st).calls = st.calls := by
  unfold titleFilterLog
  cases args.titleFilter with
  | none => rfl
  | some t =>
    by_cases h : t ≠ "" ∧ t.trim ≠ "" <;> simp [h]

@[simp] theorem titleFilterLog_cache (args : Args) (st : St) :
    (titleFilterLog args st).cache = st.cache := by
  unfold titleFilterLog
  cases args.titleFilter with
  | none => rfl
  | some t =>
    by_cases h : t ≠ "" ∧ t.trim ≠ "" <;> simp [h]

theorem ensureTargetFolder_syncRows (env : Env) (c : String) (st : St) :
    (ensureTargetFolder env c st).2.world.syncRows = st.world.syncRows := by
  unfold ensureTargetFolder createTargetFolder
  cases env.folderOk <;> simp only [if_true, if_false, Bool.false_eq_true]
  · rfl
  · cases (record Call.folderGet st).world.folders.find? (fun f => f.name = c) with
    | none => simp
    | some f =>
      by_cases hf : f.fid ≠ "" <;> simp [hf]

theorem ensureTargetFolder_items (env : Env) (c : String) (st : St) :
    (ensureTargetFolder env c st).2.world.items = st.world.items := by
  unfold ensureTargetFolder createTargetFolder
  cases env.folderOk <;> simp only [if_true, if_false, Bool.false_eq_true]
  · rfl
  · cases (record Call.folderGet st).world.folders.find? (fun f => f.name = c) with
    | none => simp
    | some f =>
      by_cases hf : f.fid ≠ "" <;> simp [hf]

theorem ensureTargetFolder_files (env : Env) (c : String) (st : St) :
    (ensureTargetFolder env c st).2.world.files = st.world.files := by
  unfold ensureTargetFolder createTargetFolder
  cases env.folderOk <;> simp only [if_true, if_false, Bool.false_eq_true]
  · rfl
  · cases (record Call.folderGet st).world.folders.find? (fun f => f.name = c) with
    | none => simp
    | some f =>
      by_cases hf : f.fid ≠ "" <;> simp [hf]

theorem ensureTargetFolder_cache (env : Env) (c : String) (st : St) :
    (ensureTargetFolder env c st).2.cache = st.cache := by
  unfold ensureTargetFolder createTargetFolder
  cases env.folderOk <;> simp only [if_true, if_false, Bool.false_eq_true]
  · rfl
  · cases (record Call.folderGet st).world.folders.find? (fun f => f.name = c) with
    | none => simp
    | some f =>
      by_cases hf : f.fid ≠ "" <;> simp [hf]

theorem ensureTargetFolder_calls (env : Env) (c : String) (st : St) :
    ∀ d ∈ (ensureTargetFolder env c st).2.calls,
      d ∈ st.calls ∨ d = .folderGet ∨ d = .folderPost := by
  unfold ensureTargetFolder createTargetFolder
  cases env.folderOk <;> simp only [if_true, if_false, Bool.false_eq_true]
  · intro d hd
    simp at hd
    tauto
  · cases (record Call.folderGet st).world.folders.find? (fun f => f.name = c) with
    | none =>
      intro d hd
      simp at hd
      tauto
    | some f =>
      by_cases hf : f.fid ≠ ""
      · simp only [if_pos hf]
        intro d hd
        simp at hd
        tauto
      · simp only [if_neg hf]
        intro d hd
        simp at hd
        tauto

/-- Evaluation of `importTry` past a successful token validation: it
reduces to the fetch-and-run tail over a state whose mapping rows, items,
cache are untouched and whose calls grew only by the token check and
folder provisioning. -/
theorem importTry_token_ok (env : Env) (args : Args) (st : St)
    (htok : env.tokenValidation = .ok true) :
    ∃ tfid st2, importTry env args st = fetchAndRun env args tfid st2 ∧
      st2.world.syncRows = st.world.syncRows ∧
      st2.world.items = st.world.items ∧
      st2.world.files = st.world.files ∧
      st2.cache = st.cache ∧
      (∀ d ∈ st2.calls, d ∈ st.calls ∨ d = .tokenCheck ∨ d = .folderGet ∨ d = .folderPost) := by
  unfold importTry
  rw [htok]
  dsimp only
  rcases hfold : ensureTargetFolder env args.collection
      (logStep "token_validation_success" none (record .tokenCheck (logStep "import_start" none st)))
    with ⟨tfid, stf⟩
  refine ⟨tfid, _, rfl, ?_, ?_, ?_, ?_, ?_⟩
  · have := ensureTargetFolder_syncRows env args.collection
      (logStep "token_validation_success" none (record .tokenCheck (logStep "import_start" none st)))
    rw [hfold] at this
    simpa using this
  · have := ensureTargetFolder_items env args.collection
      (logStep "token_validation_success" none (record .tokenCheck (logStep "import_start" none st)))
    rw [hfold] at this
    simpa using this
  · have := ensureTargetFolder_files env args.collection
      (logStep "token_validation_success" none (record .tokenCheck (logStep "import_start" none st)))
    rw [hfold] at this
    simpa using this
  · have := ensureTargetFolder_cache env args.collection
      (logStep "token_validation_success" none (record .tokenCheck (logStep "import_start" none st)))
    rw [hfold] at this
    simpa using this
  · intro d hd
    rw [titleFilterLog_calls, logStep_calls] at hd
    have := ensureTargetFolder_calls env args.collection
      (logStep "token_validation_success" none (record .tokenCheck (logStep "import_start" none st)))
    rw [hfold] at this
    have h2 := this d hd
    simp only [logStep_calls, record_calls, List.mem_append, List.mem_singleton] at h2
    tauto

/-- Evaluation of the fetch-and-run tail on an empty (or coerced-empty)
source list: the empty-collection success result, with only the fetch call
added and the world untouched. -/
theorem fetchAndRun_empty (env : Env) (args : Args) (tfid : Option String) (st : St)
    (resp : Value) (hresp : env.itemsResponse = .ok resp) (hco : coerceItems resp = []) :
    ∃ st2, fetchAndRun env args tfid st =
      (.ok { success := true,
             message := emptyCollectionMessage args.collection args.titleFilter,
             importedItems := some [], importLog := st2.log }, st2) ∧
      st2.calls = st.calls ++ [.itemsFetch] ∧ st2.world = st.world := by
  unfold fetchAndRun
  rw [hresp]
  dsimp only
  rw [hco]
  simp only [List.isEmpty_nil, if_true]
  exact ⟨_, rfl, rfl, rfl⟩

/-! ### Per-item and loop lemmas -/

theorem finishSuccess_fst (env : Env) (col s : String) (idv : Option Value)
    (act rid : String) (rd : List (String × Value)) (st : St) :
    (finishSuccess env col s idv act rid rd st).1 =
      .ok { originalId := idv, newId := some rid, status := "success",
            action := some act, data := some rd } := rfl

theorem createItemPath_ok_status (env : Env) (col s : String) (idv : Option Value)
    (ci : List (String × Value)) (st : St) (e : Entry) (st2 : St)
    (h : createItemPath env col s idv ci st = (.ok e, st2)) : e.status = "success" := by
  unfold createItemPath at h
  by_cases hw : env.writeFails s
  · rw [if_pos hw] at h
    exact Except.noConfusion (congrArg Prod.fst h)
  · rw [if_neg hw] at h
    have h1 := congrArg Prod.fst h
    rw [finishSuccess_fst] at h1
    have h2 := Except.ok.inj h1
    rw [← h2]

theorem writeItem_ok_status (env : Env) (col s : String) (idv : Option Value)
    (mapped : Option String) (ci : List (String × Value)) (st : St) (e : Entry) (st2 : St)
    (h : writeItem env col s idv mapped ci st = (.ok e, st2)) : e.status = "success" := by
  unfold writeItem at h
  cases mapped with
  | none => exact createItemPath_ok_status _ _ _ _ _ _ _ _ h
  | some lid =>
    dsimp only at h
    split at h
    · have h1 := congrArg Prod.fst h
      rw [finishSuccess_fst] at h1
      have h2 := Except.ok.inj h1
      rw [← h2]
    · exact createItemPath_ok_status _ _ _ _ _ _ _ _ h

theorem processItem_ok_status (env : Env) (col : String) (tfid : Option String)
    (item : Value) (st : St) (e : Entry) (st2 : St)
    (h : processItem env col tfid item st = (.ok e, st2)) : e.status = "success" := by
  unfold processItem at h
  cases item with
  | vNull => exact Except.noConfusion (congrArg Prod.fst h)
  | vStr s => exact writeItem_ok_status _ _ _ _ _ _ _ _ _ h
  | vNum n => exact writeItem_ok_status _ _ _ _ _ _ _ _ _ h
  | vBool b => exact writeItem_ok_status _ _ _ _ _ _ _ _ _ h
  | vObj fs => exact writeItem_ok_status _ _ _ _ _ _ _ _ _ h
  | vArr l => exact writeItem_ok_status _ _ _ _ _ _ _ _ _ h

theorem errorEntry_status (idv : Option Value) (msg : String) :
    (errorEntry idv msg).status = "error" := rfl

theorem getProp_of_ne_null (item : Value) (k : String) (h : item ≠ .vNull) :
    ∃ idv, getProp item k = .ok idv := by
  cases item
  case vNull => exact absurd rfl h
  all_goals exact ⟨_, rfl⟩

/-- Totality and shape of the per-item loop: over a list of non-null
items, the loop never throws, appends exactly one entry per item, and
every appended entry carries status `success` or `error`. -/
theorem importLoop_total (env : Env) (col : String) (tfid : Option String) :
    ∀ (l : List Value) (acc : List Entry) (st : St),
    (∀ v ∈ l, v ≠ .vNull) →
    ∃ es st2, importLoop env col tfid l acc st = (.ok es, st2) ∧
      es.length = acc.length + l.length ∧
      ∀ e ∈ es, e ∈ acc ∨ e.status = "success" ∨ e.status = "error" := by
  intro l
  induction l with
  | nil =>
    intro acc st _
    exact ⟨acc, st, rfl, by simp, fun e he => Or.inl he⟩
  | cons item rest ih =>
    intro acc st hnn
    rcases hpi : processItem env col tfid item st with ⟨a, st1⟩
    cases a with
    | ok e =>
      obtain ⟨es, st2, heq, hlen, hmem⟩ :=
        ih (acc ++ [e]) st1 (fun v hv => hnn v (List.mem_cons_of_mem _ hv))
      refine ⟨es, st2, ?_, ?_, ?_⟩
      · unfold importLoop
        rw [hpi]
        dsimp only
        exact heq
      · rw [hlen]
        simp
        omega
      · intro e2 he2
        rcases hmem e2 he2 with hin | h | h
        · rcases List.mem_append.mp hin with hin | hin
          · exact Or.inl hin
          · rw [List.mem_singleton.mp hin]
            exact Or.inr (Or.inl (processItem_ok_status _ _ _ _ _ _ _ hpi))
        · exact Or.inr (Or.inl h)
        · exact Or.inr (Or.inr h)
    | error msg =>
      obtain ⟨idv, hgp⟩ :=
        getProp_of_ne_null item "id" (hnn item (List.mem_cons_self _ _))
      obtain ⟨es, st2, heq, hlen, hmem⟩ :=
        ih (acc ++ [errorEntry idv msg]) (logStep "item_import_failed" none st1)
          (fun v hv => hnn v (List.mem_cons_of_mem _ hv))
      refine ⟨es, st2, ?_, ?_, ?_⟩
      · unfold importLoop
        rw [hpi]
        dsimp only
        rw [hgp]
        dsimp only
        exact heq
      · rw [hlen]
        simp
        omega
      · intro e2 he2
        rcases hmem e2 he2 with hin | h | h
        · rcases List.mem_append.mp hin with hin | hin
          · exact Or.inl hin
          · rw [List.mem_singleton.mp hin]
            exact Or.inr (Or.inr (errorEntry_status _ _))
        · exact Or.inr (Or.inl h)
        · exact Or.inr (Or.inr h)

theorem sliceLimit_nil (limit : Option Int) : sliceLimit limit [] = [] := by
  cases limit with
  | none => rfl
  | some n =>
    unfold sliceLimit
    split <;> simp

theorem mem_sliceLimit (limit : Option Int) (l : List Value) (v : Value)
    (h : v ∈ sliceLimit limit l) : v ∈ l := by
  cases limit with
  | none => exact h
  | some n =>
    unfold sliceLimit at h
    dsimp only at h
    by_cases hn : n > 0
    · rw [if_pos hn] at h
      exact List.Sublist.mem h (List.take_sublist _ _)
    · rw [if_neg hn] at h
      exact h

/-- Evaluation of the fetch-and-run tail when the coerced source list is
non-empty and the loop returns normally. -/
theorem fetchAndRun_run (env : Env) (args : Args) (tfid : Option String) (st : St)
    (resp : Value) (hresp : env.itemsResponse = .ok resp)
    (hne : (coerceItems resp).isEmpty = false)
    (es : List Entry) (st3 : St)
    (hloop : importLoop env args.collection tfid (sliceLimit args.limit (coerceItems resp)) []
        (logStep "import_items_start" none
          (logStep "fetch_data_success" none (record .itemsFetch st))) = (.ok es, st3)) :
    fetchAndRun env args tfid st =
      (.ok { success := true,
             message := summaryMessage args (es.countP (fun e => e.status = "success"))
               (es.countP (fun e => e.status = "error")),
             importedItems := some es,
             importLog := (logStep "import_complete" none st3).log },
       logStep "import_complete" none st3) := by
  unfold fetchAndRun
  rw [hresp]
  dsimp only
  rw [hne]
  simp only [Bool.false_eq_true, if_false]
  rw [hloop]

/-- Evaluation of the fetch-and-run tail when the loop itself throws (a
null item making the catch handler rethrow). -/
theorem fetchAndRun_loop_error (env : Env) (args : Args) (tfid : Option String) (st : St)
    (resp : Value) (hresp : env.itemsResponse = .ok resp)
    (hne : (coerceItems resp).isEmpty = false)
    (msg : String) (st3 : St)
    (hloop : importLoop env args.collection tfid (sliceLimit args.limit (coerceItems resp)) []
        (logStep "import_items_start" none
          (logStep "fetch_data_success" none (record .itemsFetch st))) = (.error msg, st3)) :
    fetchAndRun env args tfid st = (.error msg, st3) := by
  unfold fetchAndRun
  rw [hresp]
  dsimp only
  rw [hne]
  simp only [Bool.false_eq_true, if_false]
  rw [hloop]

/-- Evaluation of the fetch-and-run tail when the source request throws. -/
theorem fetchAndRun_fetch_throw (env : Env) (args : Args) (tfid : Option String)
    (st : St) (msg : String) (hresp : env.itemsResponse = .error msg) :
    fetchAndRun env args tfid st = (.error msg, record .itemsFetch st) := by
  unfold fetchAndRun
  rw [hresp]

/-! ### Sanitizer lemmas -/

theorem setField_keys (fs : List (String × Value)) (k : String) (v : Value) :
    (setField fs k v).map Prod.fst = fs.map Prod.fst := by
  unfold setField
  rw [List.map_map]
  apply List.map_congr_left
  intro p _
  by_cases hp : p.1 = k <;> simp [hp, Function.comp]

theorem remapFileIdsFields_keys (m : List (String × String)) :
    ∀ fs : List (String × Value),
      (remapFileIdsFields m fs).map Prod.fst = fs.map Prod.fst := by
  intro fs
  induction fs with
  | nil => rfl
  | cons q t ih =>
    unfold remapFileIdsFields
    simp [ih]

theorem remap_vObj_keys (m : List (String × String)) (fs : List (String × Value)) :
    (objFields (remapFileIds m (.vObj fs))).map Prod.fst = fs.map Prod.fst := by
  unfold remapFileIds
  cases hid : lookupField fs "id" with
  | none =>
    dsimp only [objFields]
    exact remapFileIdsFields_keys m fs
  | some idv =>
    cases idv
    case vStr s =>
      dsimp only [objFields]
      by_cases hc : s ≠ "" ∧ (m.find? (fun p => p.1 = s)).isSome
      · rw [if_pos hc]
        exact setField_keys fs "id" _
      · rw [if_neg hc]
        exact remapFileIdsFields_keys m fs
    all_goals
      dsimp only [objFields]
      exact remapFileIdsFields_keys m fs

theorem zipRest_no_system (raw : Value) (q : String × Value) (h : q ∈ zipRest raw) :
    q.1 ∉ systemFieldNames := by
  unfold zipRest removeSystemFields at h
  have := (List.mem_filter.mp h).2
  simpa using this

theorem removeSystemFields_idem (fs : List (String × Value)) :
    removeSystemFields (removeSystemFields fs) = removeSystemFields fs := by
  unfold removeSystemFields
  apply List.filter_eq_self.mpr
  intro a ha
  exact (List.mem_filter.mp ha).2

/-- One sanitizer iteration either leaves the accumulator alone or appends
exactly one binding under the processed key — which then is a
destination-schema key. -/
theorem sanitizeStep_shape (fields : List FieldDef) (acc : List (String × Value))
    (k : String) (v : Value) :
    sanitizeStep fields acc k v = acc ∨
      ((fields.find? (fun f => f.field = k)).isSome ∧
        ∃ w, sanitizeStep fields acc k v = acc ++ [(k, w)]) := by
  unfold sanitizeStep
  cases hf : fields.find? (fun f => f.field = k) with
  | none => exact Or.inl rfl
  | some fd =>
    dsimp only
    by_cases hs : isSimpleValue v = true
    · rw [if_pos hs]
      exact Or.inr ⟨rfl, v, rfl⟩
    · rw [if_neg hs]
      cases v <;> try exact Or.inl rfl
      rename_i fs2
      dsimp only
      by_cases hff : isFileFieldDef fd = true
      · rw [if_pos hff]
        cases toIdIfObject (.vObj fs2) <;> try exact Or.inl rfl
        rename_i s
        dsimp only
        by_cases hse : s ≠ ""
        · rw [if_pos hse]
          exact Or.inr ⟨rfl, .vStr s, rfl⟩
        · rw [if_neg hse]
          exact Or.inl rfl
      · rw [if_neg hff]
        by_cases hsi : isSimpleValue (toIdIfObject (.vObj fs2)) = true
        · rw [if_pos hsi]
          exact Or.inr ⟨rfl, toIdIfObject (.vObj fs2), rfl⟩
        · rw [if_neg hsi]
          exact Or.inl rfl

theorem mem_sanitizeFold (fields : List FieldDef) :
    ∀ (raw : List (String × Value)) (acc : List (String × Value)) (p : String × Value),
    p ∈ raw.foldl (fun acc q => sanitizeStep fields acc q.1 q.2) acc →
    p ∈ acc ∨ ((fields.find? (fun f => f.field = p.1)).isSome ∧ p.1 ∈ raw.map Prod.fst) := by
  intro raw
  induction raw with
  | nil =>
    intro acc p h
    exact Or.inl h
  | cons q t ih =>
    intro acc p h
    have h2 := ih (sanitizeStep fields acc q.1 q.2) p h
    rcases h2 with h2 | ⟨hsome, hmem⟩
    · rcases sanitizeStep_shape fields acc q.1 q.2 with hsh | ⟨hsome, w, hsh⟩
      · rw [hsh] at h2
        exact Or.inl h2
      · rw [hsh] at h2
        rcases List.mem_append.mp h2 with h3 | h3
        · exact Or.inl h3
        · rw [List.mem_singleton.mp h3]
          exact Or.inr ⟨hsome, by simp⟩
    · exact Or.inr ⟨hsome, by simp [hmem]⟩

theorem mem_setOrAppend (l : List (String × Value)) (k : String) (v : Value)
    (p : String × Value) (h : p ∈ setOrAppend l k v) : p ∈ l ∨ p.1 = k := by
  unfold setOrAppend at h
  by_cases hf : (l.find? (fun q => q.1 = k)).isSome = true
  · rw [if_pos hf] at h
    unfold setField at h
    obtain ⟨q, hq, hqe⟩ := List.mem_map.mp h
    by_cases hk : q.1 = k
    · rw [if_pos hk] at hqe
      rw [← hqe]
      exact Or.inr rfl
    · rw [if_neg hk] at hqe
      rw [← hqe]
      exact Or.inl hq
  · rw [if_neg hf] at h
    rcases List.mem_append.mp h with h | h
    · exact Or.inl h
    · rw [List.mem_singleton.mp h]
      exact Or.inr rfl

theorem mem_sanitizePayload (fields : List FieldDef) (raw : List (String × Value))
    (p : String × Value) (h : p ∈ sanitizePayload fields raw) :
    (fields.find? (fun f => f.field = p.1)).isSome ∧
      (p.1 ∈ raw.map Prod.fst ∨ p.1 = "status") := by
  unfold sanitizePayload at h
  by_cases hc : ((fields.find? (fun f => f.field = "status")).isSome = true ∧
      statusMissing (raw.foldl (fun acc q => sanitizeStep fields acc q.1 q.2) []) = true)
  · rw [if_pos hc] at h
    rcases mem_setOrAppend _ _ _ p h with h2 | h2
    · rcases mem_sanitizeFold fields raw [] p h2 with h3 | ⟨hsome, hmem⟩
      · exact absurd h3 (List.not_mem_nil p)
      · exact ⟨hsome, Or.inl hmem⟩
    · refine ⟨?_, Or.inr h2⟩
      rw [h2]
      exact hc.1
  · rw [if_neg hc] at h
    rcases mem_sanitizeFold fields raw [] p h with h3 | ⟨hsome, hmem⟩
    · exact absurd h3 (List.not_mem_nil p)
    · exact ⟨hsome, Or.inl hmem⟩

/-! ### C8 — server-managed and non-schema fields -/

/-- C8 counterexample: in the direct `importFromDirectus` path the payload
written to the target keeps every non-server-managed key of the source
item — here the key `extra`, absent from a destination schema carrying
only `id`, `title` and `status` — refuting the claim that the written
payload never contains a key outside the destination schema. -/
theorem C8_nonschema_key_written :
    Call.itemPost [("extra", .vStr "x")] ∈
      (importFromDirectus
        { itemsResponse := .ok (.vArr [.vObj [("id", .vStr "s1"), ("extra", .vStr "x")]]) }
        { collection := "projects" } {}).2.calls ∧
    (([{ field := "id" }, { field := "title" }, { field := "status" }] :
        List FieldDef).find? (fun f => f.field = "extra")) = none :=
  ⟨by decide, rfl⟩

/-- C8 (amended): in the ZIP-import path, the sanitized payload
(`sanitizePayload` over the destructured, file-remapped rest) contains
only destination-schema keys and none of the five server-managed fields,
and the pipeline depends on the raw item only through its system-stripped
rest — the server-managed fields are removed before any other processing.
In the direct `importFromDirectus` path only the five server-managed
fields are removed; other non-schema keys pass through to the write. -/
theorem C8_sanitized_payload (fields : List FieldDef) (m : List (String × String))
    (raw : Value) :
    (∀ p ∈ zipSanitizedPayload fields m raw,
      (∃ fd ∈ fields, fd.field = p.1) ∧ p.1 ∉ systemFieldNames) ∧
    zipSanitizedPayload fields m raw = zipSanitizedPayload fields m (.vObj (zipRest raw)) := by
  constructor
  · intro p hp
    obtain ⟨hsome, hkey⟩ := mem_sanitizePayload fields _ p hp
    constructor
    · obtain ⟨fd, hfd⟩ := Option.isSome_iff_exists.mp hsome
      refine ⟨fd, List.mem_of_find?_eq_some hfd, ?_⟩
      have := List.find?_some hfd
      simpa using this
    · rcases hkey with hkey | hkey
      · rw [remap_vObj_keys] at hkey
        obtain ⟨q, hq, hqe⟩ := List.mem_map.mp hkey
        rw [← hqe]
        exact zipRest_no_system raw q hq
      · rw [hkey]
        decide
  · unfold zipSanitizedPayload
    have hz : zipRest (.vObj (zipRest raw)) = zipRest raw := by
      unfold zipRest
      dsimp only [Value.truthy, objFields]
      rw [if_pos (by simp)]
      exact removeSystemFields_idem _
    rw [hz]

/-- Witness for C8 at a concrete schema and raw item: the surviving
binding is a schema key and not server-managed. -/
theorem C8_sanitized_payload_witness :
    ((∃ fd ∈ ([{ field := "title" }, { field := "status" }] : List FieldDef),
        fd.field = ("title", Value.vStr "x").1) ∧
      ("title", Value.vStr "x").1 ∉ systemFieldNames) ∧
    zipSanitizedPayload [{ field := "title" }, { field := "status" }] []
        (.vObj [("id", .vStr "7"), ("title", .vStr "x")]) =
      zipSanitizedPayload [{ field := "title" }, { field := "status" }] []
        (.vObj (zipRest (.vObj [("id", .vStr "7"), ("title", .vStr "x")]))) :=
  ⟨(C8_sanitized_payload [{ field := "title" }, { field := "status" }] []
      (.vObj [("id", .vStr "7"), ("title", .vStr "x")])).1 ("title", .vStr "x") (by decide),
   (C8_sanitized_payload [{ field := "title" }, { field := "status" }] []
      (.vObj [("id", .vStr "7"), ("title", .vStr "x")])).2⟩

/-! ### Upload-count invariant (for the duplicate-upload analysis) -/

/-- Run invariant: at most one binary upload has happened per source file
id, and a performed upload is recorded in the per-run `fileIdCache`. -/
def UploadInv (st : St) : Prop :=
  ∀ c, countFilePost c st.calls ≤ 1 ∧
    (1 ≤ countFilePost c st.calls → (st.cache.find? (fun p => p.1 = c)).isSome = true)

theorem upInv_no_new (st : St) (h : UploadInv st) (st' : St) (Δ : List Call)
    (hcalls : st'.calls = st.calls ++ Δ)
    (hfree : ∀ c, Call.filePost c ∉ Δ)
    (hcache : st'.cache = st.cache) : UploadInv st' := by
  intro c
  have hcc : countFilePost c st'.calls = countFilePost c st.calls := by
    unfold countFilePost
    rw [hcalls, List.countP_append]
    have hz : List.countP (fun d => d = Call.filePost c) Δ = 0 := by
      rw [List.countP_eq_zero]
      intro d hd
      simp only [decide_eq_true_eq]
      intro hde
      rw [hde] at hd
      exact hfree c hd
    rw [hz]
    omega
  constructor
  · rw [hcc]
    exact (h c).1
  · intro hge
    rw [hcc] at hge
    rw [hcache]
    exact (h c).2 hge

theorem upInv_initSt (w : World) : UploadInv (initSt w) := by
  intro c
  have hz : countFilePost c (initSt w).calls = 0 := rfl
  exact ⟨by omega, by intro hge; omega⟩

theorem upInv_logStep (s : String) (f : Option String) (st : St) (h : UploadInv st) :
    UploadInv (logStep s f st) :=
  upInv_no_new st h _ [] (by simp) (by intro c; simp) rfl

theorem getMappedLocalId_snd (env : Env) (col s : String) (st : St) :
    (getMappedLocalId env col s st).2 = record .syncGet st := by
  unfold getMappedLocalId
  dsimp only
  split
  · split <;> first | rfl | split <;> rfl
  · rfl

theorem upInv_record_nonupload (d : Call) (st : St) (hd : ∀ c, d ≠ .filePost c)
    (h : UploadInv st) : UploadInv (record d st) :=
  upInv_no_new st h _ [d] rfl
    (by
      intro c hc
      rcases List.mem_singleton.mp hc with hcc
      exact hd c hcc.symm) rfl

theorem upInv_getMappedLocalId (env : Env) (col s : String) (st : St)
    (h : UploadInv st) : UploadInv (getMappedLocalId env col s st).2 := by
  rw [getMappedLocalId_snd]
  exact upInv_record_nonupload _ _ (by intro c; exact fun hh => Call.noConfusion hh) h

theorem upInv_insertSyncRow (col s lid : String) (st : St) (h : UploadInv st) :
    UploadInv (insertSyncRow col s lid st) := by
  unfold insertSyncRow
  refine upInv_no_new st h _ [.syncPost s lid] ?_ ?_ rfl
  · simp [record]
  · intro c hc
    rcases List.mem_singleton.mp hc with hcc
    exact Call.noConfusion hcc

theorem upInv_upsertMapping (env : Env) (col s lid : String) (st : St)
    (h : UploadInv st) : UploadInv (upsertMapping env col s lid st) := by
  unfold upsertMapping
  dsimp only
  split
  · split
    · rename_i r heq
      split
      · split
        · refine upInv_no_new st h _ [.syncGet, .syncPatch r.rid lid] ?_ ?_ rfl
          · simp [record]
          · intro c hc
            rcases List.mem_cons.mp hc with hcc | hcc
            · exact Call.noConfusion hcc
            · rcases List.mem_singleton.mp hcc with hcc
              exact Call.noConfusion hcc
        · exact upInv_record_nonupload _ _ (fun c hh => Call.noConfusion hh) h
      · exact upInv_insertSyncRow _ _ _ _
          (upInv_record_nonupload _ _ (fun c hh => Call.noConfusion hh) h)
    · exact upInv_insertSyncRow _ _ _ _
        (upInv_record_nonupload _ _ (fun c hh => Call.noConfusion hh) h)
  · exact upInv_record_nonupload _ _ (fun c hh => Call.noConfusion hh) h

theorem upInv_fetchSourceFileMeta (env : Env) (fid : String) (st : St)
    (h : UploadInv st) : UploadInv (fetchSourceFileMeta env fid st).2 := by
  unfold fetchSourceFileMeta
  dsimp only
  split <;>
    exact upInv_record_nonupload _ _ (fun c hh => Call.noConfusion hh) h

theorem upInv_fetchTargetFileMeta (fid : String) (st : St)
    (h : UploadInv st) : UploadInv (fetchTargetFileMeta fid st).2 := by
  unfold fetchTargetFileMeta
  dsimp only
  split <;>
    exact upInv_record_nonupload _ _ (fun c hh => Call.noConfusion hh) h

theorem upInv_world_update (st : St) (w : World) (h : UploadInv st) :
    UploadInv { st with world := w } :=
  upInv_no_new st h _ [] (by simp) (by intro c; simp) rfl

/-- Generic shape of a successful upload step: a fresh upload can only
happen for an uncached id (whose count is then necessarily 0), and it
caches the id. -/
theorem upInv_upload (st : St) (h : UploadInv st) (fid nid : String)
    (hmiss : st.cache.find? (fun p => p.1 = fid) = none)
    (st' : St)
    (hcalls : st'.calls = st.calls ++ [.srcFileGet fid, .srcAssetGet fid, .filePost fid])
    (hcache : st'.cache = st.cache ++ [(fid, nid)]) : UploadInv st' := by
  intro c
  have hnew : countFilePost c [.srcFileGet fid, .srcAssetGet fid, .filePost fid] =
      (if c = fid then 1 else 0) := by
    by_cases hc : c = fid
    · subst hc
      simp [countFilePost, List.countP_cons]
    · rw [if_neg hc]
      simp [countFilePost, List.countP_cons]
      intro hcc
      exact absurd hcc.symm hc
  have hcc : countFilePost c st'.calls = countFilePost c st.calls + (if c = fid then 1 else 0) := by
    unfold countFilePost at hnew ⊢
    rw [hcalls, List.countP_append, hnew]
  by_cases hc : c = fid
  · subst hc
    have hz : countFilePost c st.calls = 0 := by
      by_contra hnz
      have hge : 1 ≤ countFilePost c st.calls := Nat.one_le_iff_ne_zero.mpr hnz
      have hsome := (h c).2 hge
      rw [hmiss] at hsome
      exact Bool.noConfusion hsome
    rw [hcc, hz, if_pos rfl]
    constructor
    · omega
    · intro _
      rw [hcache, List.find?_append, hmiss]
      simp
  · rw [hcc, if_neg hc]
    constructor
    · simpa using (h c).1
    · intro hge
      have hsome := (h c).2 (by omega)
      rw [hcache, List.find?_append]
      rw [Option.isSome_iff_exists] at hsome
      obtain ⟨q, hq⟩ := hsome
      rw [hq]
      rfl

theorem fetchSourceFileMeta_snd (env : Env) (fid : String) (st : St) :
    (fetchSourceFileMeta env fid st).2 = record (.srcFileGet fid) st := by
  unfold fetchSourceFileMeta
  dsimp only
  split <;> rfl

theorem fetchTargetFileMeta_snd (fid : String) (st : St) :
    (fetchTargetFileMeta fid st).2 = record (.fileGet fid) st := by
  unfold fetchTargetFileMeta
  dsimp only
  split <;> rfl

/-- The upload site itself preserves the invariant when upload responses
carry ids. -/
theorem upInv_copyFileToTarget (env : Env) (tfid : Option String) (fid : String)
    (title : Option String) (st : St) (hup : env.uploadReturnsId = true)
    (h : UploadInv st) : UploadInv (copyFileToTarget env tfid fid title st).2 := by
  unfold copyFileToTarget
  cases hcache : st.cache.find? (fun p => p.1 = fid) with
  | some p => exact h
  | none =>
    dsimp only
    have hst1 := fetchSourceFileMeta_snd env fid st
    cases hm : (fetchSourceFileMeta env fid st).1 with
    | error e =>
      rw [hst1]
      exact upInv_record_nonupload _ _ (fun c hh => Call.noConfusion hh) h
    | ok meta =>
      simp only []
      by_cases hbin : env.sourceBinaryOk fid = true
      · rw [if_pos hbin, hup, if_pos rfl]
        apply upInv_upload st h fid
          ((freshId (record (.filePost fid)
            (record (.srcAssetGet fid) (fetchSourceFileMeta env fid st).2))).1) hcache
        · simp [record, hst1]
        · simp [record, hst1]
      · rw [if_neg hbin]
        refine upInv_no_new st h _ [.srcFileGet fid, .srcAssetGet fid] ?_ ?_ ?_
        · simp [record, hst1]
        · intro c hc
          rcases List.mem_cons.mp hc with hcc | hcc
          · exact Call.noConfusion hcc
          · rcases List.mem_singleton.mp hcc with hcc
            exact Call.noConfusion hcc
        · simp [record, hst1]

theorem upInv_reuseCompare (tfid itemTitle : Option String) (key c etid : String)
    (srcMeta : FileMeta) (fss : FieldSt) (st : St) (h : UploadInv st) :
    UploadInv (reuseCompare tfid itemTitle key c etid srcMeta fss st).2.2 := by
  unfold reuseCompare
  dsimp only
  have hft := fetchTargetFileMeta_snd etid st
  cases hm : (fetchTargetFileMeta etid st).1 with
  | error e =>
    rw [hft]
    exact upInv_record_nonupload _ _ (fun c2 hh => Call.noConfusion hh) h
  | ok dstMeta =>
    dsimp only
    have hinv2 : UploadInv (fetchTargetFileMeta etid st).2 := by
      rw [hft]
      exact upInv_record_nonupload _ _ (fun c2 hh => Call.noConfusion hh) h
    split
    · split
      · apply upInv_logStep
        apply upInv_world_update
        exact upInv_record_nonupload _ _ (fun c2 hh => Call.noConfusion hh) hinv2
      · exact upInv_logStep _ _ _ hinv2
    · exact hinv2

theorem upInv_tryReuseExisting (env : Env) (tfid itemTitle : Option String)
    (key c etid : String) (fss : FieldSt) (st : St) (h : UploadInv st) :
    UploadInv (tryReuseExisting env tfid itemTitle key c etid fss st).2.2 := by
  unfold tryReuseExisting
  dsimp only
  cases hpm : fss.perMeta.find? (fun p => p.1 = c) with
  | some p =>
    dsimp only
    exact upInv_reuseCompare _ _ _ _ _ _ _ _ h
  | none =>
    dsimp only
    have hsnd := fetchSourceFileMeta_snd env c st
    cases hm : (fetchSourceFileMeta env c st).1 with
    | error e =>
      rw [hsnd]
      exact upInv_record_nonupload _ _ (fun c2 hh => Call.noConfusion hh) h
    | ok srcMeta =>
      apply upInv_reuseCompare
      rw [hsnd]
      exact upInv_record_nonupload _ _ (fun c2 hh => Call.noConfusion hh) h

theorem upInv_tryReuseViaExisting (env : Env) (tfid itemTitle : Option String)
    (existing : Option (List (String × Value))) (key c : String)
    (fss : FieldSt) (st : St) (h : UploadInv st) :
    UploadInv (tryReuseViaExisting env tfid itemTitle existing key c fss st).2.2 := by
  unfold tryReuseViaExisting
  cases existing with
  | none => exact h
  | some exFields =>
    dsimp only
    cases existingFileId (lookupField exFields key) with
    | none => exact h
    | some etid => exact upInv_tryReuseExisting _ _ _ _ _ _ _ _ h

theorem upInv_processField (env : Env) (tfid itemTitle : Option String)
    (existing : Option (List (String × Value))) (key : String)
    (fss : FieldSt) (st : St) (hup : env.uploadReturnsId = true) (h : UploadInv st) :
    UploadInv (processField env tfid itemTitle existing key fss st).2 := by
  unfold processField
  cases lookupField fss.cleanItem key with
  | none => exact h
  | some value =>
    dsimp only
    split
    · split
      · exact upInv_logStep _ _ _ h
      · cases candidateFileId value with
        | none => exact h
        | some c =>
          dsimp only
          cases fss.perMap.find? (fun p => p.1 = c) with
          | some p => exact upInv_logStep _ _ _ h
          | none =>
            dsimp only
            have h1 : UploadInv (record (.srcFileGet c) st) :=
              upInv_record_nonupload _ _ (fun c2 hh => Call.noConfusion hh) h
            split
            · have h2 := upInv_tryReuseViaExisting env tfid itemTitle existing key c fss
                (record (.srcFileGet c) st) h1
              split
              · exact h2
              · have h3 := upInv_logStep "file_copy_start" (some key) _ h2
                have h4 := upInv_copyFileToTarget env tfid c itemTitle
                  (logStep "file_copy_start" (some key)
                    (tryReuseViaExisting env tfid itemTitle existing key c fss
                      (record (.srcFileGet c) st)).2.2) hup h3
                split
                · exact upInv_logStep _ _ _ h4
                · exact upInv_logStep _ _ _ h4
            · exact h1
    · exact h

theorem upInv_processFields (env : Env) (tfid itemTitle : Option String)
    (existing : Option (List (String × Value))) (hup : env.uploadReturnsId = true) :
    ∀ (keys : List String) (fss : FieldSt) (st : St), UploadInv st →
      UploadInv (processFields env tfid itemTitle existing keys fss st).2 := by
  intro keys
  induction keys with
  | nil => intro fss st h; exact h
  | cons k ks ih =>
    intro fss st h
    unfold processFields
    exact ih _ _ (upInv_processField env tfid itemTitle existing k fss st hup h)

theorem upInv_finishSuccess (env : Env) (col s : String) (idv : Option Value)
    (act rid : String) (rd : List (String × Value)) (st : St) (h : UploadInv st) :
    UploadInv (finishSuccess env col s idv act rid rd st).2 := by
  unfold finishSuccess
  exact upInv_upsertMapping _ _ _ _ _ (upInv_logStep _ _ _ h)

theorem upInv_createItemPath (env : Env) (col s : String) (idv : Option Value)
    (ci : List (String × Value)) (st : St) (h : UploadInv st) :
    UploadInv (createItemPath env col s idv ci st).2 := by
  unfold createItemPath
  dsimp only
  have h1 : UploadInv (record (.itemPost ci) st) :=
    upInv_record_nonupload _ _ (fun c2 hh => Call.noConfusion hh) h
  split
  · exact h1
  · exact upInv_finishSuccess _ _ _ _ _ _ _ _ (upInv_world_update _ _ h1)

theorem upInv_writeItem (env : Env) (col s : String) (idv : Option Value)
    (mapped : Option String) (ci : List (String × Value)) (st : St) (h : UploadInv st) :
    UploadInv (writeItem env col s idv mapped ci st).2 := by
  unfold writeItem
  cases mapped with
  | none => exact upInv_createItemPath _ _ _ _ _ _ h
  | some lid =>
    dsimp only
    have h1 : UploadInv (record (.itemPatch lid ci) (logStep "item_update_start" none st)) :=
      upInv_record_nonupload _ _ (fun c2 hh => Call.noConfusion hh) (upInv_logStep _ _ _ h)
    split
    · exact upInv_finishSuccess _ _ _ _ _ _ _ _ (upInv_world_update _ _ h1)
    · exact upInv_createItemPath _ _ _ _ _ _ (upInv_logStep _ _ _ h1)

theorem upInv_processItem (env : Env) (col : String) (tfid : Option String)
    (item : Value) (st : St) (hup : env.uploadReturnsId = true) (h : UploadInv st) :
    UploadInv (processItem env col tfid item st).2 := by
  unfold processItem
  cases item
  case vNull => exact h
  all_goals {
    dsimp only
    apply upInv_writeItem
    apply upInv_processFields _ _ _ _ hup
    split
    · apply upInv_record_nonupload _ _ (fun c2 hh => Call.noConfusion hh)
      apply upInv_getMappedLocalId
      exact h
    · apply upInv_getMappedLocalId
      exact h
  }

theorem upInv_importLoop (env : Env) (col : String) (tfid : Option String)
    (hup : env.uploadReturnsId = true) :
    ∀ (l : List Value) (acc : List Entry) (st : St), UploadInv st →
      UploadInv (importLoop env col tfid l acc st).2 := by
  intro l
  induction l with
  | nil => intro acc st h; exact h
  | cons item rest ih =>
    intro acc st h
    unfold importLoop
    rcases hpi : processItem env col tfid item st with ⟨a, st1⟩
    have h1 : UploadInv st1 := by
      have := upInv_processItem env col tfid item st hup h
      rw [hpi] at this
      exact this
    cases a with
    | ok e => exact ih _ _ h1
    | error msg =>
      cases getProp item "id" with
      | error e2 => exact h1
      | ok idv => exact ih _ _ (upInv_logStep _ _ _ h1)

theorem upInv_ensureTargetFolder (env : Env) (c : String) (st : St) (h : UploadInv st) :
    UploadInv (ensureTargetFolder env c st).2 := by
  unfold ensureTargetFolder createTargetFolder
  have h1 : UploadInv (record .folderGet st) :=
    upInv_record_nonupload _ _ (fun c2 hh => Call.noConfusion hh) h
  split
  · dsimp only
    split
    · split
      · exact upInv_logStep _ _ _ h1
      · exact upInv_logStep _ _ _ (upInv_world_update _ _
          (upInv_record_nonupload _ _ (fun c2 hh => Call.noConfusion hh) h1))
    · exact upInv_logStep _ _ _ (upInv_world_update _ _
        (upInv_record_nonupload _ _ (fun c2 hh => Call.noConfusion hh) h1))
  · exact upInv_logStep _ _ _ h1

theorem upInv_titleFilterLog (args : Args) (st : St) (h : UploadInv st) :
    UploadInv (titleFilterLog args st) := by
  unfold titleFilterLog
  split
  · split
    · exact upInv_logStep _ _ _ h
    · exact h
  · exact h

theorem upInv_fetchAndRun (env : Env) (args : Args) (tfid : Option String) (st : St)
    (hup : env.uploadReturnsId = true) (h : UploadInv st) :
    UploadInv (fetchAndRun env args tfid st).2 := by
  unfold fetchAndRun
  have h1 : UploadInv (record .itemsFetch st) :=
    upInv_record_nonupload _ _ (fun c2 hh => Call.noConfusion hh) h
  cases env.itemsResponse with
  | error e => exact h1
  | ok resp =>
    dsimp only
    split
    · exact upInv_logStep _ _ _ (upInv_logStep _ _ _ h1)
    · rcases hl : importLoop env args.collection tfid
          (sliceLimit args.limit (coerceItems resp)) []
          (logStep "import_items_start" none (logStep "fetch_data_success" none
            (record .itemsFetch st))) with ⟨a, st3⟩
      have h2 : UploadInv st3 := by
        have := upInv_importLoop env args.collection tfid hup
          (sliceLimit args.limit (coerceItems resp)) []
          (logStep "import_items_start" none (logStep "fetch_data_success" none
            (record .itemsFetch st)))
          (upInv_logStep _ _ _ (upInv_logStep _ _ _ h1))
        rw [hl] at this
        exact this
      cases a with
      | error e => exact h2
      | ok entries => exact upInv_logStep _ _ _ h2

/-- Run-level invariant: a whole `importFromDirectus` run performs at most
one binary upload per source file id, provided upload responses carry ids. -/
theorem upInv_importFromDirectus (env : Env) (args : Args) (w : World)
    (hup : env.uploadReturnsId = true) :
    UploadInv (importFromDirectus env args w).2 := by
  unfold importFromDirectus
  have h0 : UploadInv (initSt w) := upInv_initSt w
  have hTry : UploadInv (importTry env args (initSt w)).2 := by
    unfold importTry
    have h1 : UploadInv (record .tokenCheck (logStep "import_start" none (initSt w))) :=
      upInv_record_nonupload _ _ (fun c2 hh => Call.noConfusion hh)
        (upInv_logStep _ _ _ h0)
    cases env.tokenValidation with
    | error e => exact h1
    | ok b =>
      cases b with
      | false => exact upInv_logStep _ _ _ h1
      | true =>
        dsimp only
        apply upInv_fetchAndRun _ _ _ _ hup
        apply upInv_titleFilterLog
        apply upInv_logStep
        exact upInv_ensureTargetFolder _ _ _ (upInv_logStep _ _ _ h1)
  rcases hT : importTry env args (initSt w) with ⟨a, st2⟩
  have h2 : UploadInv st2 := by
    rw [hT] at hTry
    exact hTry
  cases a with
  | ok r => exact h2
  | error e => exact upInv_logStep _ _ _ h2

/-! ### Per-item resolution cache lemmas -/

theorem lookupField_cons (a : String) (b : Value) (t : List (String × Value)) (k : String) :
    lookupField ((a, b) :: t) k = if a = k then some b else lookupField t k := by
  unfold lookupField
  rw [List.find?_cons]
  by_cases ha : a = k <;> simp [ha]

theorem lookupField_setField_self (fs : List (String × Value)) (k : String) (v w : Value)
    (h : lookupField fs k = some v) : lookupField (setField fs k w) k = some w := by
  induction fs with
  | nil => simp [lookupField] at h
  | cons q t ih =>
    rcases q with ⟨a, b⟩
    rw [lookupField_cons] at h
    show lookupField ((if a = k then (k, w) else (a, b)) :: setField t k w) k = some w
    by_cases ha : a = k
    · rw [if_pos ha, lookupField_cons, if_pos rfl]
    · rw [if_neg ha] at h
      rw [if_neg ha, lookupField_cons, if_neg ha]
      exact ih h

theorem lookupField_setField_ne (fs : List (String × Value)) (k k2 : String) (w : Value)
    (h : k2 ≠ k) : lookupField (setField fs k w) k2 = lookupField fs k2 := by
  induction fs with
  | nil => rfl
  | cons q t ih =>
    rcases q with ⟨a, b⟩
    show lookupField ((if a = k then (k, w) else (a, b)) :: setField t k w) k2 = _
    by_cases ha : a = k
    · have hk2 : ¬(k = k2) := fun hh => h hh.symm
      have ha2 : ¬(a = k2) := by rw [ha]; exact hk2
      rw [if_pos ha, lookupField_cons, lookupField_cons, if_neg hk2, if_neg ha2]
      exact ih
    · rw [if_neg ha, lookupField_cons, lookupField_cons]
      by_cases ha2 : a = k2
      · rw [if_pos ha2, if_pos ha2]
      · rw [if_neg ha2, if_neg ha2]
        exact ih

theorem perMapLookup_append (m : List (String × String)) (q : String × String)
    (c t : String) (h : perMapLookup m c = some t) :
    perMapLookup (m ++ [q]) c = some t := by
  unfold perMapLookup at h ⊢
  obtain ⟨p, hp, hpt⟩ := Option.map_eq_some'.mp h
  rw [List.find?_append, hp]
  simpa using hpt

theorem reuseCompare_cleanItem (tfid itemTitle : Option String) (key c etid : String)
    (srcMeta : FileMeta) (fss : FieldSt) (st : St) :
    (reuseCompare tfid itemTitle key c etid srcMeta fss st).2.1.cleanItem = fss.cleanItem := by
  unfold reuseCompare
  dsimp only
  split
  · rfl
  · split
    · split
      · rfl
      · rfl
    · rfl

theorem reuseCompare_perMap (tfid itemTitle : Option String) (key c etid : String)
    (srcMeta : FileMeta) (fss : FieldSt) (st : St) :
    (reuseCompare tfid itemTitle key c etid srcMeta fss st).2.1.perMap = fss.perMap := by
  unfold reuseCompare
  dsimp only
  split
  · rfl
  · split
    · split
      · rfl
      · rfl
    · rfl

theorem tryReuseExisting_cleanItem (env : Env) (tfid itemTitle : Option String)
    (key c etid : String) (fss : FieldSt) (st : St) :
    (tryReuseExisting env tfid itemTitle key c etid fss st).2.1.cleanItem = fss.cleanItem := by
  unfold tryReuseExisting
  dsimp only
  cases hpm : fss.perMeta.find? (fun p => p.1 = c) with
  | some p => exact reuseCompare_cleanItem _ _ _ _ _ _ _ _
  | none =>
    dsimp only
    cases hm : (fetchSourceFileMeta env c st).1 with
    | error e => rfl
    | ok srcMeta => exact reuseCompare_cleanItem _ _ _ _ _ _ _ _

theorem tryReuseExisting_perMap (env : Env) (tfid itemTitle : Option String)
    (key c etid : String) (fss : FieldSt) (st : St) :
    (tryReuseExisting env tfid itemTitle key c etid fss st).2.1.perMap = fss.perMap := by
  unfold tryReuseExisting
  dsimp only
  cases hpm : fss.perMeta.find? (fun p => p.1 = c) with
  | some p => exact reuseCompare_perMap _ _ _ _ _ _ _ _
  | none =>
    dsimp only
    cases hm : (fetchSourceFileMeta env c st).1 with
    | error e => rfl
    | ok srcMeta => exact reuseCompare_perMap _ _ _ _ _ _ _ _

theorem tryReuseViaExisting_cleanItem (env : Env) (tfid itemTitle : Option String)
    (existing : Option (List (String × Value))) (key c : String)
    (fss : FieldSt) (st : St) :
    (tryReuseViaExisting env tfid itemTitle existing key c fss st).2.1.cleanItem =
      fss.cleanItem := by
  unfold tryReuseViaExisting
  cases existing with
  | none => rfl
  | some exFields =>
    dsimp only
    cases existingFileId (lookupField exFields key) with
    | none => rfl
    | some etid => exact tryReuseExisting_cleanItem _ _ _ _ _ _ _ _

theorem tryReuseViaExisting_perMap (env : Env) (tfid itemTitle : Option String)
    (existing : Option (List (String × Value))) (key c : String)
    (fss : FieldSt) (st : St) :
    (tryReuseViaExisting env tfid itemTitle existing key c fss st).2.1.perMap =
      fss.perMap := by
  unfold tryReuseViaExisting
  cases existing with
  | none => rfl
  | some exFields =>
    dsimp only
    cases existingFileId (lookupField exFields key) with
    | none => rfl
    | some etid => exact tryReuseExisting_perMap _ _ _ _ _ _ _ _

/-- A per-field step either leaves the payload binding structure alone or
rewrites exactly its own key, and only ever appends to the per-item
resolution map. -/
theorem processField_shape (env : Env) (tfid itemTitle : Option String)
    (existing : Option (List (String × Value))) (key : String)
    (fss : FieldSt) (st : St) :
    ((processField env tfid itemTitle existing key fss st).1.cleanItem = fss.cleanItem ∨
      ∃ w, (processField env tfid itemTitle existing key fss st).1.cleanItem =
        setField fss.cleanItem key w) ∧
    ((processField env tfid itemTitle existing key fss st).1.perMap = fss.perMap ∨
      ∃ q, (processField env tfid itemTitle existing key fss st).1.perMap =
        fss.perMap ++ [q]) := by
  unfold processField
  cases lookupField fss.cleanItem key with
  | none => exact ⟨Or.inl rfl, Or.inl rfl⟩
  | some value =>
    dsimp only
    split
    · split
      · exact ⟨Or.inl rfl, Or.inl rfl⟩
      · cases candidateFileId value with
        | none => exact ⟨Or.inl rfl, Or.inl rfl⟩
        | some c =>
          dsimp only
          cases fss.perMap.find? (fun p => p.1 = c) with
          | some p => exact ⟨Or.inr ⟨_, rfl⟩, Or.inl rfl⟩
          | none =>
            dsimp only
            split
            · have hcl := tryReuseViaExisting_cleanItem env tfid itemTitle existing key c
                fss (record (.srcFileGet c) st)
              have hpm := tryReuseViaExisting_perMap env tfid itemTitle existing key c
                fss (record (.srcFileGet c) st)
              split
              · rename_i rid heq2
                refine ⟨Or.inr ⟨.vStr rid, ?_⟩, Or.inr ⟨(c, rid), ?_⟩⟩
                · show setField _ key _ = _
                  rw [hcl]
                · show _ ++ _ = _
                  rw [hpm]
              · split
                · rename_i nid heq3
                  refine ⟨Or.inr ⟨.vStr nid, ?_⟩, Or.inr ⟨(c, nid), ?_⟩⟩
                  · show setField _ key _ = _
                    rw [hcl]
                  · show _ ++ _ = _
                    rw [hpm]
                · exact ⟨Or.inl hcl, Or.inl hpm⟩
            · exact ⟨Or.inl rfl, Or.inl rfl⟩
    · exact ⟨Or.inl rfl, Or.inl rfl⟩

theorem processField_other_key (env : Env) (tfid itemTitle : Option String)
    (existing : Option (List (String × Value))) (key : String)
    (fss : FieldSt) (st : St) (k2 : String) (hne : k2 ≠ key) :
    lookupField (processField env tfid itemTitle existing key fss st).1.cleanItem k2 =
      lookupField fss.cleanItem k2 := by
  rcases (processField_shape env tfid itemTitle existing key fss st).1 with hsh | ⟨w, hsh⟩
  · rw [hsh]
  · rw [hsh, lookupField_setField_ne _ _ _ _ hne]

theorem processField_perMap_mono (env : Env) (tfid itemTitle : Option String)
    (existing : Option (List (String × Value))) (key : String)
    (fss : FieldSt) (st : St) (c t : String)
    (h : perMapLookup fss.perMap c = some t) :
    perMapLookup (processField env tfid itemTitle existing key fss st).1.perMap c = some t := by
  rcases (processField_shape env tfid itemTitle existing key fss st).2 with hsh | ⟨q, hsh⟩
  · rw [hsh]
    exact h
  · rw [hsh]
    exact perMapLookup_append _ _ _ _ h

/-- The per-item-map hit branch: a candidate already resolved in this item
is rewritten to the cached target id with only a reuse log event — no
call at all. -/
theorem processField_hit (env : Env) (tfid itemTitle : Option String)
    (existing : Option (List (String × Value))) (key : String)
    (fss : FieldSt) (st : St) (v : Value) (c t : String)
    (hlv : lookupField fss.cleanItem key = some v)
    (hcand : candidateFileId v = some c)
    (hmap : perMapLookup fss.perMap c = some t) :
    processField env tfid itemTitle existing key fss st =
      ({ fss with cleanItem := setField fss.cleanItem key (.vStr t) },
       logStep "file_reused_in_item" (some key) st) := by
  obtain ⟨p, hp, hpt⟩ := Option.map_eq_some'.mp hmap
  unfold processField
  rw [hlv]
  cases v with
  | vStr s =>
    have hs : s ≠ "" := by
      by_contra hempty
      rw [hempty] at hcand
      simp [candidateFileId] at hcand
    simp only [if_pos (show Value.truthy (.vStr s) = true by simp [Value.truthy, hs]),
      hcand, hp, hpt]
  | vObj fs2 =>
    simp only [if_pos (show Value.truthy (.vObj fs2) = true by simp [Value.truthy]),
      hcand, hp, hpt]
  | vNull => simp [candidateFileId] at hcand
  | vNum n => simp [candidateFileId] at hcand
  | vBool b => simp [candidateFileId] at hcand
  | vArr l => simp [candidateFileId] at hcand

theorem processFields_not_mem (env : Env) (tfid itemTitle : Option String)
    (existing : Option (List (String × Value))) :
    ∀ (keys : List String) (fss : FieldSt) (st : St) (k : String), k ∉ keys →
      lookupField (processFields env tfid itemTitle existing keys fss st).1.cleanItem k =
        lookupField fss.cleanItem k := by
  intro keys
  induction keys with
  | nil => intro fss st k _; rfl
  | cons k1 rest ih =>
    intro fss st k hk
    unfold processFields
    dsimp only
    rw [ih _ _ k (fun hh => hk (List.mem_cons_of_mem _ hh))]
    exact processField_other_key env tfid itemTitle existing k1 fss st k
      (fun hh => hk (by rw [hh]; exact List.mem_cons_self _ _))

/-- First resolution wins within one item: once the per-item map binds a
source file id to a target id, every later field whose value carries that
candidate id ends the loop rewritten to exactly that target id. -/
theorem processFields_reuse (env : Env) (tfid itemTitle : Option String)
    (existing : Option (List (String × Value))) :
    ∀ (keys : List String) (fss : FieldSt) (st : St) (c t k : String),
      keys.Nodup →
      perMapLookup fss.perMap c = some t →
      k ∈ keys →
      (∃ v, lookupField fss.cleanItem k = some v ∧ candidateFileId v = some c) →
      lookupField (processFields env tfid itemTitle existing keys fss st).1.cleanItem k =
        some (.vStr t) := by
  intro keys
  induction keys with
  | nil =>
    intro fss st c t k _ _ hk _
    exact absurd hk (List.not_mem_nil k)
  | cons k1 rest ih =>
    intro fss st c t k hnd hmap hk hval
    obtain ⟨v, hlv, hcand⟩ := hval
    unfold processFields
    dsimp only
    by_cases hkk : k = k1
    · subst hkk
      rw [processField_hit env tfid itemTitle existing k fss st v c t hlv hcand hmap]
      rw [processFields_not_mem env tfid itemTitle existing rest _ _ k
        (List.nodup_cons.mp hnd).1]
      exact lookupField_setField_self _ _ _ _ hlv
    · have hkr : k ∈ rest := by
        rcases List.mem_cons.mp hk with hh | hh
        · exact absurd hh hkk
        · exact hh
      apply ih _ _ c t k (List.nodup_cons.mp hnd).2
        (processField_perMap_mono env tfid itemTitle existing k1 fss st c t hmap) hkr
      exact ⟨v, by
        rw [processField_other_key env tfid itemTitle existing k1 fss st k hkk]
        exact hlv, hcand⟩

/-! ### Evaluation lemmas for the idempotent-rerun analysis -/

theorem getMappedLocalId_eval (env : Env) (col s : String) (st : St)
    (hsa : env.syncAvailable = true) :
    getMappedLocalId env col s st =
      ((match lookupSyncRow st.world col s with
        | some r => if r.localId ≠ "" then some r.localId else none
        | none => none), record .syncGet st) := by
  simp only [getMappedLocalId, hsa, if_true, record_world]
  cases lookupSyncRow st.world col s with
  | none => rfl
  | some r => by_cases hr : r.localId ≠ "" <;> simp [hr]

theorem upsertMapping_insert_eval (env : Env) (col s lid : String) (st : St)
    (hsa : env.syncAvailable = true)
    (hnone : lookupSyncRow st.world col s = none) :
    upsertMapping env col s lid st = insertSyncRow col s lid (record .syncGet st) := by
  simp [upsertMapping, hsa, record_world, hnone]

theorem upsertMapping_noop_eval (env : Env) (col s lid : String) (st : St)
    (hsa : env.syncAvailable = true) (r : SyncRow)
    (hfind : lookupSyncRow st.world col s = some r) (hrid : r.rid ≠ "")
    (hlid : r.localId = lid) :
    upsertMapping env col s lid st = record .syncGet st := by
  simp only [upsertMapping, hsa, if_true, record_world, hfind]
  rw [if_pos hrid, if_neg (by simp [hlid])]

/-- With no reachable source files, a per-field step is inert: the payload
and the per-item caches are unchanged, the target world and per-run cache
are untouched, and at most a source probe is recorded. -/
theorem processField_inert (env : Env) (tfid itemTitle : Option String)
    (existing : Option (List (String × Value))) (key : String)
    (fss : FieldSt) (st : St)
    (hsf : env.sourceFiles = fun _ => none) (hpm : fss.perMap = []) :
    (processField env tfid itemTitle existing key fss st).1 = fss ∧
    (processField env tfid itemTitle existing key fss st).2.world = st.world ∧
    (processField env tfid itemTitle existing key fss st).2.cache = st.cache ∧
    (∀ d ∈ (processField env tfid itemTitle existing key fss st).2.calls,
      d ∈ st.calls ∨ ∃ c2, d = Call.srcFileGet c2) := by
  unfold processField
  cases lookupField fss.cleanItem key with
  | none => exact ⟨rfl, rfl, rfl, fun d hd => Or.inl hd⟩
  | some value =>
    dsimp only
    split
    · split
      · exact ⟨rfl, rfl, rfl, fun d hd => Or.inl (by simpa using hd)⟩
      · cases candidateFileId value with
        | none => exact ⟨rfl, rfl, rfl, fun d hd => Or.inl hd⟩
        | some c =>
          dsimp only
          rw [hpm]
          dsimp only [List.find?_nil]
          rw [show (env.sourceFiles c).isSome = false by simp [hsf]]
          simp only [Bool.false_eq_true, if_false]
          refine ⟨trivial, rfl, rfl, ?_⟩
          intro d hd
          simp only [record_calls, List.mem_append, List.mem_singleton] at hd
          rcases hd with hd | hd
          · exact Or.inl hd
          · exact Or.inr ⟨c, hd⟩
    · exact ⟨rfl, rfl, rfl, fun d hd => Or.inl hd⟩

theorem processFields_inert (env : Env) (tfid itemTitle : Option String)
    (existing : Option (List (String × Value)))
    (hsf : env.sourceFiles = fun _ => none) :
    ∀ (keys : List String) (fss : FieldSt) (st : St), fss.perMap = [] →
      (processFields env tfid itemTitle existing keys fss st).1 = fss ∧
      (processFields env tfid itemTitle existing keys fss st).2.world = st.world ∧
      (processFields env tfid itemTitle existing keys fss st).2.cache = st.cache ∧
      (∀ d ∈ (processFields env tfid itemTitle existing keys fss st).2.calls,
        d ∈ st.calls ∨ ∃ c2, d = Call.srcFileGet c2) := by
  intro keys
  induction keys with
  | nil => intro fss st _; exact ⟨rfl, rfl, rfl, fun d hd => Or.inl hd⟩
  | cons k ks ih =>
    intro fss st hpm
    unfold processFields
    dsimp only
    obtain ⟨h1, h2, h3, h4⟩ := processField_inert env tfid itemTitle existing k fss st hsf hpm
    rw [h1]
    obtain ⟨g1, g2, g3, g4⟩ := ih fss (processField env tfid itemTitle existing k fss st).2 hpm
    refine ⟨g1, ?_, ?_, ?_⟩
    · rw [g2, h2]
    · rw [g3, h3]
    · intro d hd
      rcases g4 d hd with hd2 | hd2
      · exact h4 d hd2
      · exact Or.inr hd2

theorem isSome_omap {α β : Type} (g : α → β) (o : Option α) :
    (o.map g).isSome = o.isSome := by cases o <;> rfl

theorem findItem_isSome_map_update (w : World) (col lid : String)
    (merged : List (String × Value)) (col2 tid : String)
    (h : (findItem w col2 tid).isSome = true) :
    (findItem { w with items := w.items.map (fun it =>
        if it.coll = col ∧ it.tid = lid then { it with fields := merged } else it) }
      col2 tid).isSome = true := by
  unfold findItem at h ⊢
  dsimp only
  rw [isSome_omap] at h ⊢
  rw [List.find?_map, isSome_omap]
  rw [List.find?_isSome] at h ⊢
  obtain ⟨it, hit, hp⟩ := h
  refine ⟨it, hit, ?_⟩
  by_cases hc : it.coll = col ∧ it.tid = lid <;> simp [hc, Function.comp] at hp ⊢ <;> exact hp

theorem findItem_isSome_append (w : World) (x : TItem) (col2 tid : String)
    (h : (findItem w col2 tid).isSome = true) :
    (findItem { w with items := w.items ++ [x] } col2 tid).isSome = true := by
  unfold findItem at h ⊢
  dsimp only
  rw [isSome_omap] at h ⊢
  rw [List.find?_append]
  rw [Option.isSome_iff_exists] at h
  obtain ⟨it, hit⟩ := h
  rw [hit]
  rfl

theorem lookupSyncRow_append (w : World) (row : SyncRow) (col s : String) :
    lookupSyncRow { w with syncRows := w.syncRows ++ [row] } col s =
      (lookupSyncRow w col s).or (if row.table = col ∧ row.syncId = s then some row else none) := by
  unfold lookupSyncRow
  rw [List.find?_append]
  congr 1
  rw [List.find?_cons]
  by_cases hc : row.table = col ∧ row.syncId = s <;> simp [hc]

theorem lookupSyncRow_congr (w2 w : World) (h : w2.syncRows = w.syncRows)
    (col s : String) : lookupSyncRow w2 col s = lookupSyncRow w col s := by
  unfold lookupSyncRow
  rw [h]

theorem lookupSyncRow_append_eq (w2 w : World) (row : SyncRow)
    (h : w2.syncRows = w.syncRows ++ [row]) (col s : String) :
    lookupSyncRow w2 col s =
      (lookupSyncRow w col s).or
        (if row.table = col ∧ row.syncId = s then some row else none) := by
  rw [lookupSyncRow_congr w2 { w with syncRows := w.syncRows ++ [row] } h col s]
  exact lookupSyncRow_append w row col s

theorem findItem_congr (w2 w : World) (h : w2.items = w.items) (col tid : String) :
    findItem w2 col tid = findItem w col tid := by
  unfold findItem
  rw [h]

theorem findItem_isSome_append_eq (w2 w : World) (x : TItem)
    (h : w2.items = w.items ++ [x]) (col2 tid : String)
    (hs : (findItem w col2 tid).isSome = true) :
    (findItem w2 col2 tid).isSome = true := by
  rw [findItem_congr w2 { w with items := w.items ++ [x] } h col2 tid]
  exact findItem_isSome_append w x col2 tid hs

theorem findItem_isSome_map_eq (w2 w : World) (col lid : String)
    (merged : List (String × Value))
    (h : w2.items = w.items.map (fun it =>
      if it.coll = col ∧ it.tid = lid then { it with fields := merged } else it))
    (col2 tid : String) (hs : (findItem w col2 tid).isSome = true) :
    (findItem w2 col2 tid).isSome = true := by
  rw [findItem_congr w2 { w with items := w.items.map (fun it =>
    if it.coll = col ∧ it.tid = lid then { it with fields := merged } else it) } h col2 tid]
  exact findItem_isSome_map_update w col lid merged col2 tid hs

theorem findItem_self_append (w : World) (x : TItem) :
    (findItem { w with items := w.items ++ [x] } x.coll x.tid).isSome = true := by
  unfold findItem
  dsimp only
  rw [isSome_omap, List.find?_append]
  cases hf : w.items.find? (fun it => it.coll = x.coll ∧ it.tid = x.tid) with
  | some it => rfl
  | none =>
    have hp : (fun it : TItem => decide (it.coll = x.coll ∧ it.tid = x.tid)) x = true := by
      simp
    rw [List.find?_cons_of_pos ([] : List TItem) hp]
    rfl

theorem findItem_self_append_eq (w2 w : World) (x : TItem)
    (h : w2.items = w.items ++ [x]) :
    (findItem w2 x.coll x.tid).isSome = true := by
  rw [findItem_congr w2 { w with items := w.items ++ [x] } h x.coll x.tid]
  exact findItem_self_append w x

theorem finishSuccess_created (env : Env) (col s : String) (idv : Option Value)
    (rid : String) (rd : List (String × Value)) (st : St) :
    finishSuccess env col s idv "created" rid rd st =
      (.ok { originalId := idv, newId := some rid, status := "success",
             action := some "created", data := some rd },
       upsertMapping env col s rid (logStep "item_imported" none st)) := by
  unfold finishSuccess
  rw [if_neg (by decide)]

theorem finishSuccess_updated (env : Env) (col s : String) (idv : Option Value)
    (rid : String) (rd : List (String × Value)) (st : St) :
    finishSuccess env col s idv "updated" rid rd st =
      (.ok { originalId := idv, newId := some rid, status := "success",
             action := some "updated", data := some rd },
       upsertMapping env col s rid (logStep "item_updated" none st)) := by
  unfold finishSuccess
  rw [if_pos rfl]

/-- Closed-form evaluation of the create branch on a writable target with
no pre-existing mapping row: a fresh item and a fresh mapping row are
appended and the entry reports a successful create. -/
theorem createItemPath_eval (env : Env) (col s : String) (idv : Option Value)
    (ci : List (String × Value)) (st : St)
    (hwf : env.writeFails s = false)
    (hsa : env.syncAvailable = true)
    (hnone : lookupSyncRow st.world col s = none) :
    ∃ e st2 nid rid,
      createItemPath env col s idv ci st = (.ok e, st2) ∧
      e.status = "success" ∧ e.action = some "created" ∧
      st2.world.syncRows = st.world.syncRows ++
        [{ rid := rid, table := col, syncId := s, localId := nid }] ∧
      st2.world.items = st.world.items ++ [{ coll := col, tid := nid, fields := ci }] ∧
      nid ≠ "" ∧ rid ≠ "" ∧ st2.cache = st.cache := by
  unfold createItemPath
  dsimp only
  rw [hwf]
  simp only [Bool.false_eq_true, if_false]
  rw [finishSuccess_created]
  rw [upsertMapping_insert_eval env col s]
  · unfold insertSyncRow
    dsimp only
    refine ⟨_, _, _, _, rfl, rfl, rfl, rfl, rfl, ?_, ?_, rfl⟩
    · exact freshId_fst_ne_empty _
    · exact freshId_fst_ne_empty _
  · exact hsa
  · exact hnone

/-- The object branch of `processItem`, written with the stringified
source id abbreviated to `idOf`. -/
theorem processItem_obj (env : Env) (col : String) (tfid : Option String)
    (fs : List (String × Value)) (st : St) :
    processItem env col tfid (.vObj fs) st =
      (let g := getMappedLocalId env col (idOf (.vObj fs)) st
       let ex : Option (List (String × Value)) × St :=
         match g.1 with
         | some lid => (findItem g.2.world col lid, record (.itemGet lid) g.2)
         | none => (none, g.2)
       let pf := processFields env tfid (deriveItemTitle (.vObj fs)) ex.1
         ((removeSystemFields fs).map Prod.fst) { cleanItem := removeSystemFields fs } ex.2
       writeItem env col (idOf (.vObj fs)) (lookupField fs "id") g.1 pf.1.cleanItem pf.2) :=
  rfl

/-- An object item with no mapping row yet, with no reachable source
files and a writable target, is created: the mapping-rows list and the
item list each gain exactly one row, holding the item under its fresh
local id with the system fields removed. -/
theorem processItem_fresh (env : Env) (col : String) (tfid : Option String)
    (fs : List (String × Value)) (st : St)
    (hsa : env.syncAvailable = true)
    (hsf : env.sourceFiles = fun _ => none)
    (hwf : env.writeFails (idOf (.vObj fs)) = false)
    (hnone : lookupSyncRow st.world col (idOf (.vObj fs)) = none) :
    ∃ e st2 nid rid,
      processItem env col tfid (.vObj fs) st = (.ok e, st2) ∧
      e.status = "success" ∧ e.action = some "created" ∧
      st2.world.syncRows = st.world.syncRows ++
        [{ rid := rid, table := col, syncId := idOf (.vObj fs), localId := nid }] ∧
      st2.world.items = st.world.items ++
        [{ coll := col, tid := nid, fields := removeSystemFields fs }] ∧
      nid ≠ "" ∧ rid ≠ "" ∧ st2.cache = st.cache := by
  have hg : getMappedLocalId env col (idOf (.vObj fs)) st = (none, record .syncGet st) := by
    rw [getMappedLocalId_eval env col _ st hsa, hnone]
  rw [processItem_obj]
  dsimp only
  rw [hg]
  dsimp only
  obtain ⟨h1, h2, h3, h4⟩ := processFields_inert env tfid (deriveItemTitle (.vObj fs)) none hsf
    ((removeSystemFields fs).map Prod.fst) { cleanItem := removeSystemFields fs }
    (record .syncGet st) rfl
  rw [h1]
  dsimp only
  have hw2 : (processFields env tfid (deriveItemTitle (.vObj fs)) none
      ((removeSystemFields fs).map Prod.fst) { cleanItem := removeSystemFields fs }
      (record .syncGet st)).2.world = st.world := h2
  have hnone2 : lookupSyncRow (processFields env tfid (deriveItemTitle (.vObj fs)) none
      ((removeSystemFields fs).map Prod.fst) { cleanItem := removeSystemFields fs }
      (record .syncGet st)).2.world col (idOf (.vObj fs)) = none := by
    rw [hw2]
    exact hnone
  obtain ⟨e, st2, nid, rid, heq, hstat, hact, hsync, hitems, hnid, hrid, hcache⟩ :=
    createItemPath_eval env col (idOf (.vObj fs)) (lookupField fs "id")
      (removeSystemFields fs) _ hwf hsa hnone2
  refine ⟨e, st2, nid, rid, heq, hstat, hact, ?_, ?_, hnid, hrid, ?_⟩
  · rw [hsync, hw2]
  · rw [hitems, hw2]
  · rw [hcache, h3]
    rfl

/-- Closed-form evaluation of the update branch when the mapped item
exists, the target accepts the patch, and the mapping row already stores
the patched local id: the stored item is merged in place, no mapping row
is added or changed, and only a `PATCH` of the item and a mapping read are
issued. -/
theorem writeItem_update_eval (env : Env) (col s lid : String) (idv : Option Value)
    (ci : List (String × Value)) (st : St)
    (hpr : env.patchRejects s = false)
    (hsa : env.syncAvailable = true)
    (oldF : List (String × Value)) (hfound : findItem st.world col lid = some oldF)
    (r : SyncRow) (hfind : lookupSyncRow st.world col s = some r)
    (hrid : r.rid ≠ "") (hlid : r.localId = lid) :
    ∃ e st2,
      writeItem env col s idv (some lid) ci st = (.ok e, st2) ∧
      e.status = "success" ∧ e.action = some "updated" ∧
      st2.world.syncRows = st.world.syncRows ∧
      st2.world.items = st.world.items.map (fun it =>
        if it.coll = col ∧ it.tid = lid then { it with fields := mergeFields oldF ci } else it) ∧
      st2.cache = st.cache ∧
      (∀ d ∈ st2.calls, d ∈ st.calls ∨ d = Call.itemPatch lid ci ∨ d = Call.syncGet) := by
  unfold writeItem
  dsimp only
  rw [show findItem (record (.itemPatch lid ci)
      (logStep "item_update_start" none st)).world col lid = some oldF from hfound]
  rw [hpr]
  dsimp only
  rw [finishSuccess_updated]
  rw [upsertMapping_noop_eval env col s lid _ hsa r ?hf hrid hlid]
  case hf => exact hfind
  refine ⟨_, _, rfl, rfl, rfl, rfl, rfl, rfl, ?_⟩
  intro d hd
  have hd2 : d ∈ (st.calls ++ [Call.itemPatch lid ci]) ++ [Call.syncGet] := hd
  simp only [List.mem_append, List.mem_singleton] at hd2
  tauto

/-- An object item whose mapping row points at an existing local item,
with no reachable source files and a patch-accepting target, is updated in
place: the entry reports a successful update, the mapping rows are
unchanged, every item present before is still present, and no item
creation request is issued. -/
theorem processItem_mapped (env : Env) (col : String) (tfid : Option String)
    (fs : List (String × Value)) (st : St)
    (hsa : env.syncAvailable = true)
    (hsf : env.sourceFiles = fun _ => none)
    (hpr : env.patchRejects (idOf (.vObj fs)) = false)
    (r : SyncRow) (hfind : lookupSyncRow st.world col (idOf (.vObj fs)) = some r)
    (hrid : r.rid ≠ "") (hlid : r.localId ≠ "")
    (hit : (findItem st.world col r.localId).isSome = true) :
    ∃ e st2,
      processItem env col tfid (.vObj fs) st = (.ok e, st2) ∧
      e.status = "success" ∧ e.action = some "updated" ∧
      st2.world.syncRows = st.world.syncRows ∧
      (∀ col2 tid, (findItem st.world col2 tid).isSome = true →
        (findItem st2.world col2 tid).isSome = true) ∧
      st2.cache = st.cache ∧
      (∀ d ∈ st2.calls, d ∈ st.calls ∨ isItemPost d = false) := by
  have hg : getMappedLocalId env col (idOf (.vObj fs)) st =
      (some r.localId, record .syncGet st) := by
    rw [getMappedLocalId_eval env col _ st hsa, hfind]
    dsimp only
    rw [if_pos hlid]
  rw [processItem_obj]
  dsimp only
  rw [hg]
  dsimp only
  obtain ⟨h1, h2, h3, h4⟩ := processFields_inert env tfid (deriveItemTitle (.vObj fs))
    (findItem (record Call.syncGet st).world col r.localId) hsf
    ((removeSystemFields fs).map Prod.fst) { cleanItem := removeSystemFields fs }
    (record (.itemGet r.localId) (record .syncGet st)) rfl
  rw [h1]
  dsimp only
  have hw2 : (processFields env tfid (deriveItemTitle (.vObj fs))
      (findItem (record Call.syncGet st).world col r.localId)
      ((removeSystemFields fs).map Prod.fst) { cleanItem := removeSystemFields fs }
      (record (.itemGet r.localId) (record .syncGet st))).2.world = st.world := h2
  rw [Option.isSome_iff_exists] at hit
  obtain ⟨oldF, hOld⟩ := hit
  have hfound2 : findItem (processFields env tfid (deriveItemTitle (.vObj fs))
      (findItem (record Call.syncGet st).world col r.localId)
      ((removeSystemFields fs).map Prod.fst) { cleanItem := removeSystemFields fs }
      (record (.itemGet r.localId) (record .syncGet st))).2.world col r.localId = some oldF := by
    rw [hw2]
    exact hOld
  have hfind2 : lookupSyncRow (processFields env tfid (deriveItemTitle (.vObj fs))
      (findItem (record Call.syncGet st).world col r.localId)
      ((removeSystemFields fs).map Prod.fst) { cleanItem := removeSystemFields fs }
      (record (.itemGet r.localId) (record .syncGet st))).2.world col (idOf (.vObj fs)) =
      some r := by
    rw [hw2]
    exact hfind
  obtain ⟨e, st2, heq, hstat, hact, hsync, hitems, hcache, hcalls⟩ :=
    writeItem_update_eval env col (idOf (.vObj fs)) r.localId (lookupField fs "id")
      (removeSystemFields fs) _ hpr hsa oldF hfound2 r hfind2 hrid rfl
  refine ⟨e, st2, heq, hstat, hact, ?_, ?_, ?_, ?_⟩
  · rw [hsync, hw2]
  · have hitems2 : st2.world.items = st.world.items.map (fun it =>
        if it.coll = col ∧ it.tid = r.localId then
          { it with fields := mergeFields oldF (removeSystemFields fs) } else it) := by
      rw [hitems, hw2]
    intro col2 tid hsome
    exact findItem_isSome_map_eq st2.world st.world col r.localId
      (mergeFields oldF (removeSystemFields fs)) hitems2 col2 tid hsome
  · rw [hcache, h3]
    rfl
  · intro d hd
    rcases hcalls d hd with hd2 | hd2 | hd2
    · rcases h4 d hd2 with hd3 | hd3
      · have hd4 : d ∈ (st.calls ++ [Call.syncGet]) ++ [Call.itemGet r.localId] := hd3
        simp only [List.mem_append, List.mem_singleton] at hd4
        rcases hd4 with (hd5 | hd5) | hd5
        · exact Or.inl hd5
        · rw [hd5]
          exact Or.inr rfl
        · rw [hd5]
          exact Or.inr rfl
      · obtain ⟨c2, hc2⟩ := hd3
        rw [hc2]
        exact Or.inr rfl
    · rw [hd2]
      exact Or.inr rfl
    · rw [hd2]
      exact Or.inr rfl

theorem lookupSyncRow_nil (w : World) (col s : String) (h : w.syncRows = []) :
    lookupSyncRow w col s = none := by
  unfold lookupSyncRow
  rw [h]
  rfl

theorem sliceLimit_sublist (limit : Option Int) (l : List Value) :
    (sliceLimit limit l).Sublist l := by
  cases limit with
  | none => exact List.Sublist.refl l
  | some n =>
    unfold sliceLimit
    dsimp only
    by_cases hn : n > 0
    · rw [if_pos hn]
      exact List.take_sublist _ _
    · rw [if_neg hn]

/-- First run of the reconciliation loop over object items with pairwise
distinct source ids, none of which is mapped yet: the loop succeeds, each
item ends up mapped by a stored row with non-empty row id and local id to
an item present on the target, rows keyed by other source ids are
untouched, and items present before are still present. -/
theorem importLoop_fresh (env : Env) (col : String) (tfid : Option String)
    (hsa : env.syncAvailable = true)
    (hsf : env.sourceFiles = fun _ => none)
    (hwf : env.writeFails = fun _ => false) :
    ∀ (l : List Value) (acc : List Entry) (st : St),
      (∀ v ∈ l, ∃ fs, v = Value.vObj fs) →
      (l.map idOf).Nodup →
      (∀ v ∈ l, lookupSyncRow st.world col (idOf v) = none) →
      ∃ es st2, importLoop env col tfid l acc st = (.ok es, st2) ∧
        (∀ s, (∀ v ∈ l, idOf v ≠ s) →
          lookupSyncRow st2.world col s = lookupSyncRow st.world col s) ∧
        (∀ v ∈ l, ∃ r2, lookupSyncRow st2.world col (idOf v) = some r2 ∧
          r2.rid ≠ "" ∧ r2.localId ≠ "" ∧
          (findItem st2.world col r2.localId).isSome = true) ∧
        (∀ col2 tid, (findItem st.world col2 tid).isSome = true →
          (findItem st2.world col2 tid).isSome = true) := by
  intro l
  induction l with
  | nil =>
    intro acc st _ _ _
    exact ⟨acc, st, rfl, fun s _ => rfl, fun v hv => absurd hv (List.not_mem_nil v),
      fun col2 tid h => h⟩
  | cons v rest ih =>
    intro acc st hobj hnd hnone
    obtain ⟨fs, hfs⟩ := hobj v (List.mem_cons_self _ _)
    subst hfs
    rw [List.map_cons, List.nodup_cons] at hnd
    obtain ⟨hnotmem, hnd2⟩ := hnd
    have hwfv : env.writeFails (idOf (.vObj fs)) = false := by rw [hwf]
    obtain ⟨e, st1, nid, rid, hpe, hstat, hact, hsync, hitems, hnid, hrid, hcache⟩ :=
      processItem_fresh env col tfid fs st hsa hsf hwfv (hnone _ (List.mem_cons_self _ _))
    have hLrow : lookupSyncRow st1.world col (idOf (.vObj fs)) =
        some { rid := rid, table := col, syncId := idOf (.vObj fs), localId := nid } := by
      rw [lookupSyncRow_append_eq st1.world st.world _ hsync col (idOf (.vObj fs))]
      rw [hnone _ (List.mem_cons_self _ _)]
      rw [if_pos ⟨rfl, rfl⟩]
      rfl
    have hLother : ∀ s, idOf (.vObj fs) ≠ s →
        lookupSyncRow st1.world col s = lookupSyncRow st.world col s := by
      intro s hs
      rw [lookupSyncRow_append_eq st1.world st.world _ hsync col s]
      rw [if_neg (fun hc => hs hc.2)]
      rw [Option.or_none]
    have hFindNew : (findItem st1.world col nid).isSome = true :=
      findItem_self_append_eq st1.world st.world
        { coll := col, tid := nid, fields := removeSystemFields fs } hitems
    have hFindPres : ∀ col2 tid, (findItem st.world col2 tid).isSome = true →
        (findItem st1.world col2 tid).isSome = true := fun col2 tid h =>
      findItem_isSome_append_eq st1.world st.world _ hitems col2 tid h
    have hobj2 : ∀ u ∈ rest, ∃ gs, u = Value.vObj gs :=
      fun u hu => hobj u (List.mem_cons_of_mem _ hu)
    have hnone2 : ∀ u ∈ rest, lookupSyncRow st1.world col (idOf u) = none := by
      intro u hu
      rw [hLother (idOf u) (fun hcontra => hnotmem
        (hcontra ▸ List.mem_map_of_mem idOf hu))]
      exact hnone u (List.mem_cons_of_mem _ hu)
    obtain ⟨es, st2, hloop, ha, hb, hc⟩ := ih (acc ++ [e]) st1 hobj2 hnd2 hnone2
    refine ⟨es, st2, ?_, ?_, ?_, ?_⟩
    · unfold importLoop
      rw [hpe]
      dsimp only
      exact hloop
    · intro s hsall
      rw [ha s (fun u hu => hsall u (List.mem_cons_of_mem _ hu))]
      exact hLother s (hsall _ (List.mem_cons_self _ _))
    · intro u hu
      rcases List.mem_cons.mp hu with rfl | hu2
      · refine ⟨{ rid := rid, table := col, syncId := idOf (.vObj fs), localId := nid },
          ?_, hrid, hnid, ?_⟩
        · rw [ha (idOf (.vObj fs)) (fun u2 hu2 hcontra => hnotmem
            (hcontra ▸ List.mem_map_of_mem idOf hu2))]
          exact hLrow
        · exact hc col nid hFindNew
      · exact hb u hu2
    · intro col2 tid h
      exact hc col2 tid (hFindPres col2 tid h)

/-- Rerun of the reconciliation loop over object items that are all already
mapped to existing target items: the loop succeeds, produces exactly one
entry per item, every produced entry reports a successful update, and no
item creation request is issued. -/
theorem importLoop_mapped (env : Env) (col : String) (tfid : Option String)
    (hsa : env.syncAvailable = true)
    (hsf : env.sourceFiles = fun _ => none)
    (hpr : env.patchRejects = fun _ => false) :
    ∀ (l : List Value) (acc : List Entry) (st : St),
      (∀ v ∈ l, ∃ fs, v = Value.vObj fs) →
      (∀ v ∈ l, ∃ r2, lookupSyncRow st.world col (idOf v) = some r2 ∧
        r2.rid ≠ "" ∧ r2.localId ≠ "" ∧
        (findItem st.world col r2.localId).isSome = true) →
      ∃ es st2, importLoop env col tfid l acc st = (.ok es, st2) ∧
        es.length = acc.length + l.length ∧
        (∀ e ∈ es, e ∈ acc ∨ (e.status = "success" ∧ e.action = some "updated")) ∧
        (∀ d ∈ st2.calls, d ∈ st.calls ∨ isItemPost d = false) := by
  intro l
  induction l with
  | nil =>
    intro acc st _ _
    exact ⟨acc, st, rfl, by simp, fun e he => Or.inl he, fun d hd => Or.inl hd⟩
  | cons v rest ih =>
    intro acc st hobj hmap
    obtain ⟨fs, hfs⟩ := hobj v (List.mem_cons_self _ _)
    subst hfs
    have hprv : env.patchRejects (idOf (.vObj fs)) = false := by rw [hpr]
    obtain ⟨r2, hfind, hrid, hlid, hit⟩ := hmap _ (List.mem_cons_self _ _)
    obtain ⟨e, st1, hpe, hstat, hact, hsync, hpres, hcache, hcalls⟩ :=
      processItem_mapped env col tfid fs st hsa hsf hprv r2 hfind hrid hlid hit
    have hmap2 : ∀ u ∈ rest, ∃ r3, lookupSyncRow st1.world col (idOf u) = some r3 ∧
        r3.rid ≠ "" ∧ r3.localId ≠ "" ∧
        (findItem st1.world col r3.localId).isSome = true := by
      intro u hu
      obtain ⟨r3, hf3, hr3, hl3, hi3⟩ := hmap u (List.mem_cons_of_mem _ hu)
      refine ⟨r3, ?_, hr3, hl3, ?_⟩
      · rw [lookupSyncRow_congr st1.world st.world hsync col (idOf u)]
        exact hf3
      · exact hpres col r3.localId hi3
    have hobj2 : ∀ u ∈ rest, ∃ gs, u = Value.vObj gs :=
      fun u hu => hobj u (List.mem_cons_of_mem _ hu)
    obtain ⟨es, st2, hloop, hlen, hmem, hcalls2⟩ := ih (acc ++ [e]) st1 hobj2 hmap2
    refine ⟨es, st2, ?_, ?_, ?_, ?_⟩
    · unfold importLoop
      rw [hpe]
      dsimp only
      exact hloop
    · rw [hlen]
      simp
      omega
    · intro e2 he2
      rcases hmem e2 he2 with hin | h
      · rcases List.mem_append.mp hin with hin2 | hin2
        · exact Or.inl hin2
        · rw [List.mem_singleton.mp hin2]
          exact Or.inr ⟨hstat, hact⟩
      · exact Or.inr h
    · intro d hd
      rcases hcalls2 d hd with h | h
      · exact hcalls d h
      · exact Or.inr h

/-! ### C3 — idempotent rerun -/

/-- C3: running the same import twice against a target with no mapping
rows (with the mapping store available, a write-accepting target, and no
source file metadata reachable) performs, on the second run, zero creates
and N updates: the mapping recorded by the first run is found by the
second run's lookup, every entry of the second run reports action
`updated`, and the second run issues no item-creation request. -/
theorem C3_idempotent_rerun (env : Env) (args : Args) (w : World) (items : List Value)
    (htok : env.tokenValidation = .ok true)
    (hresp : env.itemsResponse = .ok (.vArr items))
    (hsa : env.syncAvailable = true)
    (hsf : env.sourceFiles = fun _ => none)
    (hwf : env.writeFails = fun _ => false)
    (hpr : env.patchRejects = fun _ => false)
    (hobj : ∀ v ∈ items, ∃ fs, v = Value.vObj fs)
    (hnd : (items.map idOf).Nodup)
    (hrows : w.syncRows = []) :
    ∃ es, (importFromDirectus env args
        (importFromDirectus env args w).2.world).1.importedItems = some es ∧
      es.length = (sliceLimit args.limit items).length ∧
      (∀ e ∈ es, e.status = "success" ∧ e.action = some "updated") ∧
      (∀ d ∈ (importFromDirectus env args
        (importFromDirectus env args w).2.world).2.calls, isItemPost d = false) := by
  obtain ⟨tfid, st2, heq, hsr2, hit2, -, -, -⟩ := importTry_token_ok env args (initSt w) htok
  by_cases hemp : items.isEmpty
  · have hnil : items = [] := List.isEmpty_iff.mp hemp
    obtain ⟨st3, heqE, hcallsE, -⟩ :=
      fetchAndRun_empty env args tfid st2 (.vArr items) hresp hnil
    have hrun1 : importFromDirectus env args w =
        ({ success := true,
           message := emptyCollectionMessage args.collection args.titleFilter,
           importedItems := some [], importLog := st3.log }, st3) := by
      unfold importFromDirectus
      rw [heq, heqE]
    have hworld1 : (importFromDirectus env args w).2.world = st3.world := by
      rw [hrun1]
    rw [hworld1]
    obtain ⟨tfid2, st2b, heqB, -, -, -, -, hcallsB⟩ :=
      importTry_token_ok env args (initSt st3.world) htok
    obtain ⟨st3b, heqEB, hcallsEB, -⟩ :=
      fetchAndRun_empty env args tfid2 st2b (.vArr items) hresp hnil
    have hrun2 : importFromDirectus env args st3.world =
        ({ success := true,
           message := emptyCollectionMessage args.collection args.titleFilter,
           importedItems := some [], importLog := st3b.log }, st3b) := by
      unfold importFromDirectus
      rw [heqB, heqEB]
    rw [hrun2]
    refine ⟨[], rfl, by rw [hnil, sliceLimit_nil]; rfl, by simp, ?_⟩
    intro d hd
    have hd1 : d ∈ st3b.calls := hd
    rw [hcallsEB] at hd1
    rcases List.mem_append.mp hd1 with h3 | h3
    · rcases hcallsB d h3 with h4 | h4 | h4 | h4
      · exact absurd h4 (List.not_mem_nil d)
      · rw [h4]; rfl
      · rw [h4]; rfl
      · rw [h4]; rfl
    · rw [List.mem_singleton.mp h3]; rfl
  · simp only [Bool.not_eq_true] at hemp
    have hsr0 : (logStep "import_items_start" none (logStep "fetch_data_success" none
        (record .itemsFetch st2))).world.syncRows = [] := by
      rw [logStep_world, logStep_world, record_world, hsr2]
      exact hrows
    have hobjS : ∀ v ∈ sliceLimit args.limit items, ∃ fs, v = Value.vObj fs :=
      fun v hv => hobj v (mem_sliceLimit _ _ _ hv)
    have hndS : ((sliceLimit args.limit items).map idOf).Nodup :=
      List.Nodup.sublist ((sliceLimit_sublist args.limit items).map idOf) hnd
    obtain ⟨es1, st3, hloop1, ha1, hb1, hc1⟩ :=
      importLoop_fresh env args.collection tfid hsa hsf hwf (sliceLimit args.limit items) []
        (logStep "import_items_start" none (logStep "fetch_data_success" none
          (record .itemsFetch st2))) hobjS hndS
        (fun v hv => lookupSyncRow_nil _ args.collection (idOf v) hsr0)
    have heq2 := fetchAndRun_run env args tfid st2 (.vArr items) hresp hemp es1 st3 hloop1
    have hrun1 : importFromDirectus env args w =
        ({ success := true,
           message := summaryMessage args (es1.countP (fun e => e.status = "success"))
             (es1.countP (fun e => e.status = "error")),
           importedItems := some es1,
           importLog := (logStep "import_complete" none st3).log },
         logStep "import_complete" none st3) := by
      unfold importFromDirectus
      rw [heq, heq2]
    have hworld1 : (importFromDirectus env args w).2.world = st3.world := by
      rw [hrun1]
      rfl
    rw [hworld1]
    obtain ⟨tfid2, st2b, heqB, hsrB, hitB, -, -, hcallsB⟩ :=
      importTry_token_ok env args (initSt st3.world) htok
    have hsrB2 : st2b.world.syncRows = st3.world.syncRows := by rw [hsrB]; rfl
    have hitB2 : st2b.world.items = st3.world.items := by rw [hitB]; rfl
    have hsr0b : (logStep "import_items_start" none (logStep "fetch_data_success" none
        (record .itemsFetch st2b))).world.syncRows = st3.world.syncRows := by
      rw [logStep_world, logStep_world, record_world]
      exact hsrB2
    have hit0b : (logStep "import_items_start" none (logStep "fetch_data_success" none
        (record .itemsFetch st2b))).world.items = st3.world.items := by
      rw [logStep_world, logStep_world, record_world]
      exact hitB2
    have hmapAll : ∀ v ∈ sliceLimit args.limit items, ∃ r2,
        lookupSyncRow (logStep "import_items_start" none (logStep "fetch_data_success" none
          (record .itemsFetch st2b))).world args.collection (idOf v) = some r2 ∧
        r2.rid ≠ "" ∧ r2.localId ≠ "" ∧
        (findItem (logStep "import_items_start" none (logStep "fetch_data_success" none
          (record .itemsFetch st2b))).world args.collection r2.localId).isSome = true := by
      intro v hv
      obtain ⟨r2, hf, hr, hl, hi⟩ := hb1 v hv
      refine ⟨r2, ?_, hr, hl, ?_⟩
      · rw [lookupSyncRow_congr _ st3.world hsr0b args.collection (idOf v)]
        exact hf
      · rw [findItem_congr _ st3.world hit0b args.collection r2.localId]
        exact hi
    obtain ⟨es2, st3b, hloop2, hlen2, hmem2, hcalls2⟩ :=
      importLoop_mapped env args.collection tfid2 hsa hsf hpr (sliceLimit args.limit items) []
        (logStep "import_items_start" none (logStep "fetch_data_success" none
          (record .itemsFetch st2b))) hobjS hmapAll
    have heq2B := fetchAndRun_run env args tfid2 st2b (.vArr items) hresp hemp es2 st3b hloop2
    have hrun2 : importFromDirectus env args st3.world =
        ({ success := true,
           message := summaryMessage args (es2.countP (fun e => e.status = "success"))
             (es2.countP (fun e => e.status = "error")),
           importedItems := some es2,
           importLog := (logStep "import_complete" none st3b).log },
         logStep "import_complete" none st3b) := by
      unfold importFromDirectus
      rw [heqB, heq2B]
    rw [hrun2]
    refine ⟨es2, rfl, by simpa using hlen2, ?_, ?_⟩
    · intro e he
      rcases hmem2 e he with hin | h
      · exact absurd hin (List.not_mem_nil e)
      · exact h
    · intro d hd
      have hd1 : d ∈ st3b.calls := hd
      rcases hcalls2 d hd1 with h | h
      · have hd2 : d ∈ st2b.calls ++ [Call.itemsFetch] := h
        rcases List.mem_append.mp hd2 with h3 | h3
        · rcases hcallsB d h3 with h4 | h4 | h4 | h4
          · exact absurd h4 (List.not_mem_nil d)
          · rw [h4]; rfl
          · rw [h4]; rfl
          · rw [h4]; rfl
        · rw [List.mem_singleton.mp h3]; rfl
      · exact h

/-- Environment for the C3 witness run: two object items, all other
collaborators at their healthy defaults. -/
def envC3 : Env :=
  { itemsResponse := .ok (.vArr
      [.vObj [("id", .vStr "s1"), ("name", .vStr "alpha")],
       .vObj [("id", .vStr "s2"), ("name", .vStr "beta")]]) }

/-- Witness for C3: a two-item import against the empty target, rerun over
the world the first run produced. -/
theorem C3_idempotent_rerun_witness :
    ∃ es, (importFromDirectus envC3 { collection := "projects" }
        (importFromDirectus envC3 { collection := "projects" }
          ({} : World)).2.world).1.importedItems = some es ∧
      es.length = (sliceLimit none
        [.vObj [("id", .vStr "s1"), ("name", .vStr "alpha")],
         .vObj [("id", .vStr "s2"), ("name", .vStr "beta")]]).length ∧
      (∀ e ∈ es, e.status = "success" ∧ e.action = some "updated") ∧
      (∀ d ∈ (importFromDirectus envC3 { collection := "projects" }
        (importFromDirectus envC3 { collection := "projects" }
          ({} : World)).2.world).2.calls, isItemPost d = false) :=
  C3_idempotent_rerun envC3 { collection := "projects" } {}
    [.vObj [("id", .vStr "s1"), ("name", .vStr "alpha")],
     .vObj [("id", .vStr "s2"), ("name", .vStr "beta")]]
    rfl rfl rfl rfl rfl rfl
    (by
      intro v hv
      simp only [List.mem_cons, List.not_mem_nil, or_false] at hv
      rcases hv with h | h <;> exact ⟨_, h⟩)
    (by decide)
    rfl

/-! ### C4 — duplicate file references -/

/-- Concrete source metadata used by the C4 run. -/
def fileMetaCk : FileMeta := { checksum := some "ck", filesize := some 10, type := some "image/png" }

/-- Environment for the C4 run: two items both referencing source file
`F`, which is available with binary on the source. -/
def envDupFile : Env :=
  { itemsResponse := .ok (.vArr
      [.vObj [("id", .vStr "s1"), ("photo", .vStr "F")],
       .vObj [("id", .vStr "s2"), ("photo", .vStr "F")]]),
    sourceFiles := fun fid => if fid = "F" then some fileMetaCk else none }

/-- Target world for the C4 run: item `s1` is already mapped to local item
`L1`, whose `photo` field holds target file `E` with metadata matching
source file `F` by checksum. -/
def worldDupFile : World :=
  { folders := [{ fid := "fold", name := "projects" }],
    syncRows := [{ rid := "r1", table := "projects", syncId := "s1", localId := "L1" }],
    items := [{ coll := "projects", tid := "L1", fields := [("photo", .vStr "E")] }],
    files := [("E", { checksum := some "ck", filesize := some 10,
                      type := some "image/png", folder := some "fold" })] }

/-- C4 counterexample: a run in which both fetched items reference the
same source file id `F`, yet the first item resolves it to the reused
pre-existing target file `E` (via the existing-item comparison, which
populates only the per-item cache) while the second item uploads a fresh
copy `t0` — the same source file id resolves to two different target file
ids across items within one run (with exactly one upload performed). -/
theorem C4_cross_item_resolution_differs :
    (coerceItems (.vArr
      [.vObj [("id", .vStr "s1"), ("photo", .vStr "F")],
       .vObj [("id", .vStr "s2"), ("photo", .vStr "F")]])).map
        (fun v => lookupField (objFields v) "photo") =
      [some (.vStr "F"), some (.vStr "F")] ∧
    ((importFromDirectus envDupFile { collection := "projects" }
        worldDupFile).1.importedItems.getD []).map
        (fun e => lookupField (e.data.getD []) "photo") =
      [some (.vStr "E"), some (.vStr "t0")] ∧
    countFilePost "F" (importFromDirectus envDupFile { collection := "projects" }
        worldDupFile).2.calls = 1 ∧
    Value.vStr "E" ≠ Value.vStr "t0" :=
  ⟨rfl, rfl, rfl, by decide⟩

/-- C4 (amended): within one item, once the per-item map has resolved a
source file id to a target id, every later field of that item whose value
carries the same candidate id ends the file-transfer loop rewritten to
exactly that target id (first resolution wins); and across the whole run,
at most one binary upload is performed per source file id (the per-run
`fileIdCache` absorbs later copies), provided upload responses carry ids.
The target id a later ITEM resolves the same source file to may, however,
differ when an existing item's file was reused (see the counterexample). -/
theorem C4_file_dedup :
    (∀ (env : Env) (tfid itemTitle : Option String)
        (existing : Option (List (String × Value))) (keys : List String)
        (fss : FieldSt) (st : St) (c t k : String),
      keys.Nodup →
      perMapLookup fss.perMap c = some t →
      k ∈ keys →
      (∃ v, lookupField fss.cleanItem k = some v ∧ candidateFileId v = some c) →
      lookupField (processFields env tfid itemTitle existing keys fss st).1.cleanItem k =
        some (.vStr t)) ∧
    (∀ (env : Env) (args : Args) (w : World) (c : String),
      env.uploadReturnsId = true →
      countFilePost c (importFromDirectus env args w).2.calls ≤ 1) :=
  ⟨fun env tfid itemTitle existing keys fss st c t k hnd hmap hk hval =>
     processFields_reuse env tfid itemTitle existing keys fss st c t k hnd hmap hk hval,
   fun env args w c hup => ((upInv_importFromDirectus env args w hup) c).1⟩

/-- Witness for C4: a two-field item whose second field reuses the
resolution of the first, and the counterexample run performing at most one
upload of `F`. -/
theorem C4_file_dedup_witness :
    lookupField (processFields {} none none none ["a", "b"]
        { cleanItem := [("a", .vStr "F"), ("b", .vStr "F")], perMap := [("F", "T9")] }
        (initSt {})).1.cleanItem "b" = some (.vStr "T9") ∧
    countFilePost "F" (importFromDirectus envDupFile { collection := "projects" }
        worldDupFile).2.calls ≤ 1 :=
  ⟨C4_file_dedup.1 {} none none none ["a", "b"] _ (initSt {}) "F" "T9" "b" (by decide)
      (by decide) (by decide) ⟨.vStr "F", by decide, by decide⟩,
   C4_file_dedup.2 envDupFile { collection := "projects" } worldDupFile "F" rfl⟩

/-! ### C1 — one result entry per item, loop never halts -/

/-- C1: over a fetched list of source items (key-value records, per the
data model), every processed item of the (possibly limit-sliced) list
yields exactly one entry in `importedItems`, each with status `success` or
`error`, and the run succeeds — an exception while processing one item is
converted into an `error` entry and never prevents the remaining items
from being processed. -/
theorem C1_one_entry_per_item (env : Env) (args : Args) (w : World) (resp : Value)
    (htok : env.tokenValidation = .ok true)
    (hresp : env.itemsResponse = .ok resp)
    (hobj : ∀ v ∈ coerceItems resp, ∃ fs, v = .vObj fs) :
    ∃ es, (importFromDirectus env args w).1.importedItems = some es ∧
      (importFromDirectus env args w).1.success = true ∧
      es.length = (sliceLimit args.limit (coerceItems resp)).length ∧
      ∀ e ∈ es, e.status = "success" ∨ e.status = "error" := by
  obtain ⟨tfid, st2, heq, -, -, -, -, -⟩ := importTry_token_ok env args (initSt w) htok
  by_cases hemp : (coerceItems resp).isEmpty
  · have hnil : coerceItems resp = [] := List.isEmpty_iff.mp hemp
    obtain ⟨st3, heq2, -, -⟩ := fetchAndRun_empty env args tfid st2 resp hresp hnil
    unfold importFromDirectus
    rw [heq, heq2]
    exact ⟨[], rfl, rfl, by simp [hnil, sliceLimit_nil], by simp⟩
  · simp only [Bool.not_eq_true] at hemp
    have hnn : ∀ v ∈ sliceLimit args.limit (coerceItems resp), v ≠ .vNull := by
      intro v hv
      obtain ⟨fs, hfs⟩ := hobj v (mem_sliceLimit _ _ _ hv)
      rw [hfs]
      exact fun hh => Value.noConfusion hh
    obtain ⟨es, st3, hloop, hlen, hmem⟩ :=
      importLoop_total env args.collection tfid _ []
        (logStep "import_items_start" none
          (logStep "fetch_data_success" none (record .itemsFetch st2))) hnn
    have heq2 := fetchAndRun_run env args tfid st2 resp hresp hemp es st3 hloop
    unfold importFromDirectus
    rw [heq, heq2]
    refine ⟨es, rfl, rfl, by simpa using hlen, ?_⟩
    intro e he
    rcases hmem e he with hin | h
    · exact absurd hin (List.not_mem_nil e)
    · exact h

/-- Witness for C1: two items of which the first is rejected by the
target; the run still yields one entry per item. -/
theorem C1_one_entry_per_item_witness :
    ∃ es, (importFromDirectus
        { itemsResponse := .ok (.vArr
            [.vObj [("id", .vStr "s1"), ("name", .vStr "alpha")],
             .vObj [("id", .vStr "s2"), ("name", .vStr "beta")]]),
          writeFails := fun s => s == "s1" }
        { collection := "projects" } {}).1.importedItems = some es ∧
      (importFromDirectus
        { itemsResponse := .ok (.vArr
            [.vObj [("id", .vStr "s1"), ("name", .vStr "alpha")],
             .vObj [("id", .vStr "s2"), ("name", .vStr "beta")]]),
          writeFails := fun s => s == "s1" }
        { collection := "projects" } {}).1.success = true ∧
      es.length = (sliceLimit none (coerceItems (.vArr
            [.vObj [("id", .vStr "s1"), ("name", .vStr "alpha")],
             .vObj [("id", .vStr "s2"), ("name", .vStr "beta")]]))).length ∧
      ∀ e ∈ es, e.status = "success" ∨ e.status = "error" :=
  C1_one_entry_per_item _ _ _ _ rfl rfl (by
    intro v hv
    simp [coerceItems] at hv
    rcases hv with h | h <;> exact ⟨_, h⟩)

/-! ### C2 — success flag semantics -/

theorem fetchAndRun_ok_success (env : Env) (args : Args) (tfid : Option String)
    (st : St) (r : RunResult) (st3 : St)
    (h : fetchAndRun env args tfid st = (.ok r, st3)) : r.success = true := by
  unfold fetchAndRun at h
  cases henv : env.itemsResponse with
  | error e =>
    rw [henv] at h
    exact Except.noConfusion (congrArg Prod.fst h)
  | ok resp =>
    rw [henv] at h
    dsimp only at h
    by_cases hemp : (coerceItems resp).isEmpty = true
    · rw [if_pos hemp] at h
      have h1 := Except.ok.inj (congrArg Prod.fst h)
      rw [← h1]
    · rw [if_neg hemp] at h
      split at h
      · exact Except.noConfusion (congrArg Prod.fst h)
      · have h1 := Except.ok.inj (congrArg Prod.fst h)
        rw [← h1]

/-- C2: `importFromDirectus` returns `success = false` exactly when the
source token validation fails or an unhandled exception escapes the
pipeline (`importTry` throwing); per-item failures never flip the flag.
On a failed token validation no items are fetched and nothing is written —
the only call made is the token check. -/
theorem C2_success_flag (env : Env) (args : Args) (w : World) :
    ((importFromDirectus env args w).1.success = false ↔
      (env.tokenValidation = .ok false ∨
        ∃ msg st2, importTry env args (initSt w) = (.error msg, st2))) ∧
    (env.tokenValidation = .ok false →
      (importFromDirectus env args w).1.importedItems = none ∧
      (importFromDirectus env args w).2.calls = [.tokenCheck]) := by
  cases htok : env.tokenValidation with
  | error e =>
    have hE : importTry env args (initSt w) = (.error e,
        record .tokenCheck (logStep "import_start" none (initSt w))) := by
      unfold importTry
      rw [htok]
    constructor
    · constructor
      · intro _
        exact Or.inr ⟨e, _, hE⟩
      · intro _
        unfold importFromDirectus
        rw [hE]
    · intro hf
      exact Except.noConfusion hf
  | ok b =>
    cases b with
    | false =>
      have hE : importTry env args (initSt w) = (.ok
          { success := false, message := "Token validation failed",
            errMsg := some "token validation error",
            importLog := (logStep "token_validation_failed" none
              (record .tokenCheck (logStep "import_start" none (initSt w)))).log },
          logStep "token_validation_failed" none
            (record .tokenCheck (logStep "import_start" none (initSt w)))) := by
        unfold importTry
        rw [htok]
      constructor
      · constructor
        · intro _
          exact Or.inl rfl
        · intro _
          unfold importFromDirectus
          rw [hE]
      · intro _
        unfold importFromDirectus
        rw [hE]
        exact ⟨rfl, rfl⟩
    | true =>
      obtain ⟨tfid, st2, heq, -, -, -, -, -⟩ := importTry_token_ok env args (initSt w) htok
      rcases hfr : fetchAndRun env args tfid st2 with ⟨a, st3⟩
      cases a with
      | ok r =>
        have hs : r.success = true := fetchAndRun_ok_success _ _ _ _ _ _ hfr
        constructor
        · constructor
          · intro hfalse
            unfold importFromDirectus at hfalse
            rw [heq, hfr] at hfalse
            dsimp only at hfalse
            rw [hs] at hfalse
            exact Bool.noConfusion hfalse
          · intro hrhs
            rcases hrhs with hrhs | ⟨msg, st4, hrhs⟩
            · exact Bool.noConfusion (Except.ok.inj hrhs)
            · rw [heq, hfr] at hrhs
              exact Except.noConfusion (congrArg Prod.fst hrhs)
        · intro hf
          exact Bool.noConfusion (Except.ok.inj hf)
      | error msg =>
        constructor
        · constructor
          · intro _
            exact Or.inr ⟨msg, st3, heq.trans hfr⟩
          · intro _
            unfold importFromDirectus
            rw [heq, hfr]
        · intro hf
          exact Bool.noConfusion (Except.ok.inj hf)

/-- Witness for C2: a failed token validation yields `success = false`
with no `importedItems` and the token check as the only call performed. -/
theorem C2_success_flag_witness :
    (importFromDirectus { tokenValidation := .ok false }
        { collection := "projects" } {}).1.success = false ∧
    (importFromDirectus { tokenValidation := .ok false }
        { collection := "projects" } {}).1.importedItems = none ∧
    (importFromDirectus { tokenValidation := .ok false }
        { collection := "projects" } {}).2.calls = [.tokenCheck] :=
  ⟨((C2_success_flag _ _ _).1).mpr (Or.inl rfl),
   ((C2_success_flag _ _ _).2 rfl).1,
   ((C2_success_flag _ _ _).2 rfl).2⟩

/-! ### C10 — a non-array list response behaves as an empty collection -/

/-- C10: when the source items request resolves with a value that is not
an array, `importFromDirectus` coerces it to the empty list and returns
the empty-collection success result (success, no items, the
empty-collection message) instead of reporting an error. -/
theorem C10_nonarray_response (env : Env) (args : Args) (w : World) (resp : Value)
    (htok : env.tokenValidation = .ok true)
    (hresp : env.itemsResponse = .ok resp)
    (hnot : ∀ l, resp ≠ .vArr l) :
    (importFromDirectus env args w).1.success = true ∧
    (importFromDirectus env args w).1.importedItems = some [] ∧
    (importFromDirectus env args w).1.message =
      emptyCollectionMessage args.collection args.titleFilter := by
  have hco : coerceItems resp = [] := by
    cases resp
    case vArr l => exact absurd rfl (hnot l)
    all_goals rfl
  obtain ⟨tfid, st2, heq, -, -, -, -, -⟩ := importTry_token_ok env args (initSt w) htok
  obtain ⟨st3, heq2, -, -⟩ := fetchAndRun_empty env args tfid st2 resp hresp hco
  unfold importFromDirectus
  rw [heq, heq2]
  exact ⟨rfl, rfl, rfl⟩

/-- Witness for C10: a numeric (malformed) list response. -/
theorem C10_nonarray_response_witness :
    (importFromDirectus { itemsResponse := .ok (.vNum 5) }
        { collection := "projects" } {}).1.success = true ∧
    (importFromDirectus { itemsResponse := .ok (.vNum 5) }
        { collection := "projects" } {}).1.importedItems = some [] ∧
    (importFromDirectus { itemsResponse := .ok (.vNum 5) }
        { collection := "projects" } {}).1.message =
      emptyCollectionMessage "projects" none :=
  C10_nonarray_response _ _ _ _ rfl rfl (fun _ h => Value.noConfusion h)

/-! ### C6 — empty source collection -/

/-- C6 counterexample: a run over an empty source collection against a
target with no pre-existing collection folder still performs a write to
the target — the folder-provisioning `POST /folders` — refuting the
claim's "no write to the target occurs". -/
theorem C6_write_despite_empty :
    (importFromDirectus { itemsResponse := .ok (.vArr []) }
        { collection := "projects" } {}).1.importedItems = some [] ∧
    ((importFromDirectus { itemsResponse := .ok (.vArr []) }
        { collection := "projects" } {}).2.calls.any isTargetWrite) = true :=
  ⟨rfl, rfl⟩

/-- C6 (amended): when the fetched source item list is empty (also after
coercion), `importFromDirectus` returns success with `importedItems = []`
and the message naming the collection as empty and echoing the trimmed
title filter; no item, file, or mapping write occurs — only the
folder-provisioning step, which runs before the list is fetched, may
write (create the collection folder). -/
theorem C6_empty_collection (env : Env) (args : Args) (w : World) (resp : Value)
    (htok : env.tokenValidation = .ok true)
    (hresp : env.itemsResponse = .ok resp)
    (hco : coerceItems resp = []) :
    (importFromDirectus env args w).1.success = true ∧
    (importFromDirectus env args w).1.importedItems = some [] ∧
    (importFromDirectus env args w).1.message =
      emptyCollectionMessage args.collection args.titleFilter ∧
    (∀ d ∈ (importFromDirectus env args w).2.calls, isNonFolderWrite d = false) := by
  obtain ⟨tfid, st2, heq, -, -, -, -, hcalls⟩ := importTry_token_ok env args (initSt w) htok
  obtain ⟨st3, heq2, hcalls3, -⟩ := fetchAndRun_empty env args tfid st2 resp hresp hco
  unfold importFromDirectus
  rw [heq, heq2]
  refine ⟨rfl, rfl, rfl, ?_⟩
  intro d hd
  rw [hcalls3] at hd
  rcases List.mem_append.mp hd with hd | hd
  · rcases hcalls d hd with hd2 | hd2 | hd2 | hd2
    · have : (initSt w).calls = [] := rfl
      rw [this] at hd2
      exact absurd hd2 (List.not_mem_nil d)
    · rw [hd2]; rfl
    · rw [hd2]; rfl
    · rw [hd2]; rfl
  · rw [List.mem_singleton.mp hd]; rfl

/-- Witness for C6 at a concrete empty run with a title filter. -/
theorem C6_empty_collection_witness :
    (importFromDirectus { itemsResponse := .ok (.vArr []) }
        { collection := "projects", titleFilter := some " hello " } {}).1.success = true ∧
    (importFromDirectus { itemsResponse := .ok (.vArr []) }
        { collection := "projects", titleFilter := some " hello " } {}).1.message =
      emptyCollectionMessage "projects" (some " hello ") ∧
    (∀ d ∈ (importFromDirectus { itemsResponse := .ok (.vArr []) }
        { collection := "projects", titleFilter := some " hello " } {}).2.calls,
      isNonFolderWrite d = false) :=
  ⟨(C6_empty_collection _ _ _ (.vArr []) rfl rfl rfl).1,
   (C6_empty_collection _ _ _ (.vArr []) rfl rfl rfl).2.2.1,
   (C6_empty_collection _ _ _ (.vArr []) rfl rfl rfl).2.2.2⟩

/-! ### C5 — checksum precedence in `sameFileMeta` -/

/-- C5: in the file-reuse comparison `sameFileMeta`, a checksum match
between source and target metadata decides reuse before any size/type
comparison — when both checksums are present (truthy) and equal the result
is `true` whatever the sizes are, and when the checksum comparison does
not succeed the result is exactly the size/type decision. -/
theorem C5_checksum_precedence (s d : FileMeta) :
    (checksumMatch s d → sameFileMeta (some s) (some d) = true) ∧
    (¬ checksumMatch s d → sameFileMeta (some s) (some d) = sizeTypeDecision s d) := by
  constructor
  · intro h
    unfold checksumMatch at h
    simp only [sameFileMeta, if_pos h]
  · intro h
    unfold checksumMatch at h
    simp only [sameFileMeta, if_neg h, sizeTypeDecision]

/-- Witness for C5 at concrete metadata: equal checksums with differing
sizes are reused, and without a checksum the size branch decides. -/
theorem C5_checksum_precedence_witness :
    sameFileMeta (some { checksum := some "ck", filesize := some 10 })
        (some { checksum := some "ck", filesize := some 99 }) = true ∧
    sameFileMeta (some { checksum := none, filesize := some 7 })
        (some { checksum := some "ck", filesize := some 7 }) =
      sizeTypeDecision { checksum := none, filesize := some 7 }
        { checksum := some "ck", filesize := some 7 } :=
  ⟨(C5_checksum_precedence _ _).1 (by decide),
   (C5_checksum_precedence _ _).2 (by decide)⟩

/-! ### C9 — array-valued fields are skipped by the file-transfer loop -/

/-- C9: a field whose current value is an array is never treated as a file
field — the per-field file-transfer step performs no probe, fetch or
upload (no call at all), logs a `file_copy_skip` event naming the field,
and leaves the payload and the per-item caches unchanged. -/
theorem C9_array_field_skipped (env : Env) (tfid itemTitle : Option String)
    (existing : Option (List (String × Value))) (key : String) (fss : FieldSt)
    (st : St) (l : List Value)
    (h : lookupField fss.cleanItem key = some (.vArr l)) :
    processField env tfid itemTitle existing key fss st =
      (fss, logStep "file_copy_skip" (some key) st) ∧
    (processField env tfid itemTitle existing key fss st).2.calls = st.calls := by
  have h1 : processField env tfid itemTitle existing key fss st =
      (fss, logStep "file_copy_skip" (some key) st) := by
    unfold processField
    rw [h]
    rfl
  exact ⟨h1, by rw [h1]; rfl⟩

/-- Witness for C9: a concrete gallery field holding an array. -/
theorem C9_array_field_skipped_witness :
    processField {} none none none "gallery"
        { cleanItem := [("gallery", .vArr [.vStr "f1", .vStr "f1"])] } (initSt {}) =
      ({ cleanItem := [("gallery", .vArr [.vStr "f1", .vStr "f1"])] },
       logStep "file_copy_skip" (some "gallery") (initSt {})) ∧
    (processField {} none none none "gallery"
        { cleanItem := [("gallery", .vArr [.vStr "f1", .vStr "f1"])] } (initSt {})).2.calls =
      (initSt {}).calls :=
  C9_array_field_skipped {} none none none "gallery" _ (initSt {}) _ rfl

/-! ### C7 — Identity Mapper contract -/

/-- C7 counterexample: a failing upsert (mapping store absent, so the read
throws) is swallowed but NOT logged — the import log receives no entry at
all (and the run state is otherwise untouched), refuting the claim's
"swallowed and logged". -/
theorem C7_upsert_failure_unlogged :
    (upsertMapping { syncAvailable := false } "projects" "s1" "t1" (initSt {})).log = [] ∧
    (upsertMapping { syncAvailable := false } "projects" "s1" "t1" (initSt {})).calls =
      [.syncGet] ∧
    (upsertMapping { syncAvailable := false } "projects" "s1" "t1" (initSt {})).world = {} :=
  ⟨rfl, rfl, rfl⟩

/-- C7 (amended): the Identity Mapper's lookup returns `none` whenever the
store read fails and never propagates an error; the upsert never creates a
second row for the same `(collection, sourceId)` pair (given the store
invariant that rows carry truthy ids), performs no write when the stored
`local_id` already equals the new one, and a failing upsert is swallowed
silently — without emitting a log entry. -/
theorem C7_mapper_contract (env : Env) (col s lid : String) (st : St) :
    (env.syncAvailable = false → getMappedLocalId env col s st = (none, record .syncGet st)) ∧
    (lookupSyncRow st.world col s = none → (getMappedLocalId env col s st).1 = none) ∧
    ((∀ r ∈ st.world.syncRows, r.rid ≠ "") →
      countSyncRows (upsertMapping env col s lid st).world col s ≤
        max 1 (countSyncRows st.world col s)) ∧
    (∀ r, lookupSyncRow st.world col s = some r → r.rid ≠ "" → r.localId = lid →
      upsertMapping env col s lid st = record .syncGet st) ∧
    (env.syncAvailable = false → upsertMapping env col s lid st = record .syncGet st) := by
  have hw : (record .syncGet st).world = st.world := rfl
  refine ⟨?_, ?_, ?_, ?_, ?_⟩
  · intro hna
    simp [getMappedLocalId, hna]
  · intro hnone
    cases hsa : env.syncAvailable <;> simp [getMappedLocalId, hsa, hw, hnone]
  · intro hids
    cases hsa : env.syncAvailable
    · simp only [upsertMapping, hsa, Bool.false_eq_true, if_false]
      exact Nat.le_max_right _ _
    · simp only [upsertMapping, hsa, if_true, hw]
      cases hfind : lookupSyncRow st.world col s with
      | some r =>
        dsimp only
        have hmem : r ∈ st.world.syncRows := by
          unfold lookupSyncRow at hfind
          exact List.mem_of_find?_eq_some hfind
        have hrid : r.rid ≠ "" := hids r hmem
        rw [if_pos hrid]
        by_cases hl : r.localId ≠ lid
        · rw [if_pos hl]
          have hcount : ∀ w2 : World, w2.syncRows = st.world.syncRows.map (fun q =>
              if q.rid = r.rid then { q with localId := lid } else q) →
              countSyncRows w2 col s = countSyncRows st.world col s := by
            intro w2 hrows
            unfold countSyncRows
            rw [hrows, List.countP_map]
            apply List.countP_congr
            intro q _
            by_cases hq : q.rid = r.rid <;> simp [hq, Function.comp]
          rw [hcount _ rfl]
          exact Nat.le_max_right _ _
        · rw [if_neg hl]
          exact Nat.le_max_right _ _
      | none =>
        dsimp only
        have hzero : countSyncRows st.world col s = 0 := by
          unfold countSyncRows
          rw [List.countP_eq_zero]
          intro r hr
          unfold lookupSyncRow at hfind
          have := List.find?_eq_none.mp hfind r hr
          simpa using this
        have hone : countSyncRows (insertSyncRow col s lid (record .syncGet st)).world col s =
            countSyncRows st.world col s + 1 := by
          unfold countSyncRows insertSyncRow
          simp [List.countP_append]
        rw [hone, hzero]
        simp
  · intro r hfind hrid hl
    cases hsa : env.syncAvailable
    · simp [upsertMapping, hsa]
    · simp only [upsertMapping, hsa, if_true, hw, hfind]
      rw [if_pos hrid, if_neg (by simp [hl])]
  · intro hna
    simp [upsertMapping, hna]

/-- Witness for C7 at a concrete store: an unavailable store degrades the
lookup to `none`; an upsert whose stored `local_id` already matches is a
pure no-op read; a row count never grows past one. -/
theorem C7_mapper_contract_witness :
    getMappedLocalId { syncAvailable := false } "projects" "s1"
        (initSt {}) = (none, record .syncGet (initSt {})) ∧
    upsertMapping {} "projects" "s1" "t1"
        { world := { syncRows := [{ rid := "r1", table := "projects", syncId := "s1", localId := "t1" }] } } =
      record .syncGet
        { world := { syncRows := [{ rid := "r1", table := "projects", syncId := "s1", localId := "t1" }] } } ∧
    countSyncRows (upsertMapping {} "projects" "s1" "t1"
        { world := { syncRows := [{ rid := "r1", table := "projects", syncId := "s1", localId := "t1" }] } }).world
        "projects" "s1" ≤
      max 1 (countSyncRows
        ({ world := { syncRows := [{ rid := "r1", table := "projects", syncId := "s1", localId := "t1" }] } } : St).world
        "projects" "s1") :=
  ⟨(C7_mapper_contract _ _ "s1" "t1" _).1 rfl,
   (C7_mapper_contract _ _ _ _ _).2.2.2.1
     { rid := "r1", table := "projects", syncId := "s1", localId := "t1" }
     (by decide) (by decide) rfl,
   (C7_mapper_contract _ _ _ _ _).2.2.1 (by decide)⟩

end DirectusImport
